import Mathlib

set_option maxRecDepth 100000

/-!
Verification development for the OrthoGenesisAI reconstruction core.

The definitions below are a shallow embedding of the backend code:

* `backend/app/services/async_jobs.py` — `enqueue_job`, the worker lease step
  and `AsyncJobWorker._mark_failure`;
* `backend/app/reconstruction/confidence.py` — `ConfidenceCalibrator.calibrate`;
* `backend/app/services/mesh.py` — `_decimate` and the quality profiles;
* `backend/app/reconstruction/engine.py` — `_clean_heightmap`
  (largest connected component, hole filling, crop), `_heightmap_to_mesh`
  (two-layer triangle emission and the degenerate fallback),
  `_top_vertex_confidence` and `_build_confidence_report`.

Real numbers are modelled as rationals; machine floats are idealized (the
Python `round(x, 4)` is modelled as exact half-even rounding on rationals).
Heightmaps are total functions from coordinates to values together with
explicit dimensions; reads outside the stated dimensions never occur in the
mirrored control flow.
-/

/-- Maximum of two rationals, written so that it reduces in the kernel (the
order-lattice `max` on `ℚ` does not). -/
def qmax (a b : ℚ) : ℚ := if a ≤ b then b else a

/-- Minimum of two rationals, written so that it reduces in the kernel. -/
def qmin (a b : ℚ) : ℚ := if a ≤ b then a else b

/-- Embed an integer into the rationals through `Rat.divInt`, which reduces
in the kernel (the `Int.cast` coercion does not reliably). -/
def intToQ (z : ℤ) : ℚ := Rat.divInt z 1

/-- Embed a natural number into the rationals, kernel-reducibly. -/
def natToQ (n : ℕ) : ℚ := Rat.divInt n 1

/-- Rational addition through `Rat.divInt`; the library `+` on `ℚ` is marked
irreducible, which blocks kernel evaluation, so executable definitions use
this equivalent form (see `addQ_eq`). -/
def addQ (a b : ℚ) : ℚ := Rat.divInt (a.num * b.den + b.num * a.den) (a.den * b.den)

/-- Rational subtraction through `Rat.divInt` (see `subQ_eq`). -/
def subQ (a b : ℚ) : ℚ := Rat.divInt (a.num * b.den - b.num * a.den) (a.den * b.den)

/-- Rational multiplication through `Rat.divInt` (see `mulQ_eq`). -/
def mulQ (a b : ℚ) : ℚ := Rat.divInt (a.num * b.num) (a.den * b.den)

/-- Rational division through `Rat.divInt` (see `divQ_eq`); division by zero
yields zero, as with the library `/`. -/
def divQ (a b : ℚ) : ℚ := Rat.divInt (a.num * b.den) (a.den * b.num)

/-- Sum of a list of rationals via `addQ`. -/
def sumQ (l : List ℚ) : ℚ := l.foldr addQ 0

/-- Mirrors `np.clip(v, 0.0, 1.0)` / `max(0.0, min(1.0, v))`. -/
def clip01 (q : ℚ) : ℚ := qmax 0 (qmin 1 q)

/-- Row state of `models.AsyncJob` as far as the worker logic reads and
writes it. -/
structure AsyncJob where
  jobType : String
  status : String
  payload : String
  resultJson : Option String
  attempts : ℕ
  maxAttempts : ℕ
  deadLetter : Bool
  error : Option String
  availableAt : ℤ
  updatedAt : ℤ
  finishedAt : Option ℤ
deriving DecidableEq

/-- Mirrors `enqueue_job` in `async_jobs.py`: the freshly inserted row.
`now` stands for the `_utcnow()` timestamp. -/
def enqueueJob (jobType : String) (payload : String) (maxAttempts : ℕ) (now : ℤ) : AsyncJob :=
  { jobType := jobType
    status := "queued"
    payload := payload
    resultJson := none
    attempts := 0
    maxAttempts := maxAttempts
    deadLetter := false
    error := none
    availableAt := now
    updatedAt := now
    finishedAt := none }

/-- The lease filter of `AsyncJobWorker._try_process_one`: queued,
not dead-lettered, and `available_at <= now`. -/
def leaseEligible (j : AsyncJob) (now : ℤ) : Prop :=
  j.status = "queued" ∧ j.deadLetter = false ∧ j.availableAt ≤ now

/-- The lease transition in `_try_process_one`: mark running and increment
the attempt counter. -/
def leaseJob (j : AsyncJob) (now : ℤ) : AsyncJob :=
  { j with status := "running", attempts := j.attempts + 1, updatedAt := now }

/-- Python `int(x or d)` on a nonnegative integer column. -/
def pyOr (n d : ℕ) : ℕ := if n = 0 then d else n

/-- Mirrors `AsyncJobWorker._mark_failure`: requeue with bounded exponential
backoff while attempts remain, otherwise dead-letter the job. -/
def markFailure (j : AsyncJob) (err : String) (now : ℤ) : AsyncJob :=
  let retryCount := j.attempts
  let maxAttempts := pyOr j.maxAttempts 1
  if retryCount < maxAttempts then
    { j with
      status := "queued"
      availableAt := now + (min 30 (2 ^ max 1 retryCount) : ℕ)
      error := some (err.take 2000)
      updatedAt := now }
  else
    { j with
      status := "dead"
      deadLetter := true
      error := some (err.take 2000)
      updatedAt := now
      finishedAt := some now }

/-- Default slope of `ConfidenceCalibrator` (0.92). -/
def defaultSlope : ℚ := 23 / 25

/-- Default intercept of `ConfidenceCalibrator` (0.04). -/
def defaultIntercept : ℚ := 1 / 25

/-- Mirrors `ConfidenceCalibrator.calibrate`:
`max(0.0, min(1.0, slope * raw + intercept))`. -/
def calibrate (slope intercept raw : ℚ) : ℚ :=
  qmax 0 (qmin 1 (slope * raw + intercept))

/-- A loaded triangle mesh as far as `_decimate` inspects it: a face count
plus an opaque payload standing for the rest of the trimesh object. -/
structure TriMesh where
  faceCount : ℕ
  payload : ℕ
deriving DecidableEq

/-- Python `int()` on a rational: truncation toward zero. -/
def pyInt (q : ℚ) : ℤ := if 0 ≤ q then q.floor else -(-q).floor

/-- Mirrors `_decimate` in `services/mesh.py`. The underlying
`simplify_quadratic_decimation` call is abstracted as a `simplify` oracle;
`none` models the call raising an exception. -/
def decimate (simplify : TriMesh → ℕ → Option TriMesh) (mesh : TriMesh) (r : ℚ) : TriMesh :=
  if 999 / 1000 ≤ r then mesh
  else
    let targetFaces : ℤ := max 128 (pyInt ((mesh.faceCount : ℚ) * r))
    if (mesh.faceCount : ℤ) ≤ targetFaces then mesh
    else
      match simplify mesh targetFaces.toNat with
      | some d => if 0 < d.faceCount then d else mesh
      | none => mesh

/-- Mirrors `MeshQualityProfile` in `services/mesh.py`. -/
structure MeshQualityProfile where
  name : String
  targetFrac : ℚ
  taubinIters : ℕ
  scaleMode : String
deriving DecidableEq

/-- Mirrors `QUALITY_PROFILES.get(name, QUALITY_PROFILES["clinical"])`. -/
def qualityProfile (name : String) : MeshQualityProfile :=
  if name = "draft" then ⟨"draft", 1 / 2, 2, "conservative"⟩
  else if name = "print" then ⟨"print", 17 / 20, 6, "print_mm"⟩
  else ⟨"clinical", 3 / 4, 4, "conservative"⟩

deriving instance DecidableEq for Except

/-- A heightmap: a grid of intensity values with explicit dimensions. -/
structure HeightMap where
  rows : ℕ
  cols : ℕ
  val : ℕ → ℕ → ℚ

/-- The `surface_floor` argument passed by `_mesh_from_xray` (0.008), written
with `Rat.divInt` so that it reduces in the kernel. -/
def surfaceFloorDefault : ℚ := Rat.divInt 1 125

/-- Structured mesh vertex: layer flag (`true` = top surface, `false` =
bottom base) plus grid coordinates. -/
abbrev Vert : Type := Bool × ℕ × ℕ

/-- Top-layer vertex at grid position `(y, x)`. -/
def Tv (y x : ℕ) : Vert := (true, y, x)

/-- Bottom-layer vertex at grid position `(y, x)`. -/
def Bv (y x : ℕ) : Vert := (false, y, x)

/-- Whether triangle `t` contains the undirected edge `{u, v}`. -/
def hasEdge {α : Type} [DecidableEq α] (t : α × α × α) (u v : α) : Bool :=
  (decide (t.1 = u) && decide (t.2.1 = v)) || (decide (t.1 = v) && decide (t.2.1 = u)) ||
  (decide (t.2.1 = u) && decide (t.2.2 = v)) || (decide (t.2.1 = v) && decide (t.2.2 = u)) ||
  (decide (t.1 = u) && decide (t.2.2 = v)) || (decide (t.1 = v) && decide (t.2.2 = u))

/-- Number of triangles of `l` containing the undirected edge `{u, v}`. -/
def edgeCount {α : Type} [DecidableEq α] (l : List (α × α × α)) (u v : α) : ℕ :=
  l.countP (fun t => hasEdge t u v)

/-- A closed (watertight) triangle list: every undirected edge that occurs at
all occurs in exactly two triangles. -/
def IsClosedMesh (l : List (ℕ × ℕ × ℕ)) : Prop :=
  ∀ u v : ℕ, edgeCount l u v ≠ 0 → edgeCount l u v = 2

/-- The `support` grid of `_heightmap_to_mesh`: `heightmap > surface_floor`. -/
def supported (h : HeightMap) (floor : ℚ) (y x : ℕ) : Bool :=
  decide (floor < h.val y x)

/-- The `cell_active` grid of `_heightmap_to_mesh`: a quad cell is active when
any of its four corners is supported.  Bounds are part of the predicate; the
source only defines it for `y < rows - 1`, `x < cols - 1`. -/
def cellActive (h : HeightMap) (floor : ℚ) (y x : ℕ) : Bool :=
  decide (y + 1 < h.rows) && decide (x + 1 < h.cols) &&
    (supported h floor y x || supported h floor y (x + 1) ||
     supported h floor (y + 1) x || supported h floor (y + 1) (x + 1))

/-- The triangles emitted for one active cell `(y, x)` of `_heightmap_to_mesh`
in emission order: two top triangles, two bottom triangles, then north, south,
west and east wall pairs under the source's boundary/inactive-neighbour
conditions. -/
def cellTris (A : ℕ → ℕ → Bool) (R C y x : ℕ) : List (Vert × Vert × Vert) :=
  [ (Tv y x, Tv (y + 1) x, Tv y (x + 1)),
    (Tv y (x + 1), Tv (y + 1) x, Tv (y + 1) (x + 1)),
    (Bv y x, Bv y (x + 1), Bv (y + 1) x),
    (Bv y (x + 1), Bv (y + 1) (x + 1), Bv (y + 1) x) ]
  ++ (if y = 0 ∨ A (y - 1) x = false then
      [ (Tv y x, Bv y x, Tv y (x + 1)), (Tv y (x + 1), Bv y x, Bv y (x + 1)) ] else [])
  ++ (if y = R - 2 ∨ A (y + 1) x = false then
      [ (Tv (y + 1) x, Tv (y + 1) (x + 1), Bv (y + 1) x),
        (Tv (y + 1) (x + 1), Bv (y + 1) (x + 1), Bv (y + 1) x) ] else [])
  ++ (if x = 0 ∨ A y (x - 1) = false then
      [ (Tv y x, Tv (y + 1) x, Bv y x), (Tv (y + 1) x, Bv (y + 1) x, Bv y x) ] else [])
  ++ (if x = C - 2 ∨ A y (x + 1) = false then
      [ (Tv y (x + 1), Bv y (x + 1), Tv (y + 1) (x + 1)),
        (Tv (y + 1) (x + 1), Bv y (x + 1), Bv (y + 1) (x + 1)) ] else [])

/-- Superset of `cellTris`: all twelve triangles a cell can emit, with every
wall present.  Only used in proofs, to bound edge counts. -/
def allTris (y x : ℕ) : List (Vert × Vert × Vert) :=
  [ (Tv y x, Tv (y + 1) x, Tv y (x + 1)),
    (Tv y (x + 1), Tv (y + 1) x, Tv (y + 1) (x + 1)),
    (Bv y x, Bv y (x + 1), Bv (y + 1) x),
    (Bv y (x + 1), Bv (y + 1) (x + 1), Bv (y + 1) x) ]
  ++ [ (Tv y x, Bv y x, Tv y (x + 1)), (Tv y (x + 1), Bv y x, Bv y (x + 1)) ]
  ++ [ (Tv (y + 1) x, Tv (y + 1) (x + 1), Bv (y + 1) x),
    (Tv (y + 1) (x + 1), Bv (y + 1) (x + 1), Bv (y + 1) x) ]
  ++ [ (Tv y x, Tv (y + 1) x, Bv y x), (Tv (y + 1) x, Bv (y + 1) x, Bv y x) ]
  ++ [ (Tv y (x + 1), Bv y (x + 1), Tv (y + 1) (x + 1)),
    (Tv (y + 1) (x + 1), Bv y (x + 1), Bv (y + 1) (x + 1)) ]

/-- All triangles emitted by the double loop of `_heightmap_to_mesh`, in
structured vertex form, iterating cells in row-major order. -/
def meshTrisS (R C : ℕ) (A : ℕ → ℕ → Bool) : List (Vert × Vert × Vert) :=
  ((List.range (R - 1)).map fun y =>
    (((List.range (C - 1)).map fun x =>
      if A y x = true then cellTris A R C y x else []).flatten)).flatten

/-- Vertex index encoding of `_heightmap_to_mesh`: `top_index(y, x) = y*cols + x`,
`bottom_index(y, x) = rows*cols + y*cols + x`. -/
def encV (R C : ℕ) (v : Vert) : ℕ :=
  (if v.1 = true then 0 else R * C) + v.2.1 * C + v.2.2

/-- Encode a structured triangle into the numeric index triple stored in the
face array. -/
def encTri (R C : ℕ) (t : Vert × Vert × Vert) : ℕ × ℕ × ℕ :=
  (encV R C t.1, encV R C t.2.1, encV R C t.2.2)

/-- The degenerate fallback triangles of `_heightmap_to_mesh`, emitted when no
cell is active: `[[0, 1, cols], [1, cols+1, cols], [vc, vc+1, vc+cols]]`. -/
def fallbackTris (R C : ℕ) : List (ℕ × ℕ × ℕ) :=
  [(0, 1, C), (1, C + 1, C), (R * C, R * C + 1, R * C + C)]

/-- The face list produced by `_heightmap_to_mesh` for a heightmap (before
trimesh postprocessing, which does not change the triangle index set). -/
def meshTris (h : HeightMap) (floor : ℚ) : List (ℕ × ℕ × ℕ) :=
  let tris := (meshTrisS h.rows h.cols (cellActive h floor)).map (encTri h.rows h.cols)
  if tris = [] then fallbackTris h.rows h.cols else tris

/-- Whether some cell of the heightmap is active (the `faces` list of the
source is nonempty exactly in this case). -/
def anyActiveCell (h : HeightMap) (floor : ℚ) : Bool :=
  (List.range (h.rows - 1)).any fun y =>
    (List.range (h.cols - 1)).any fun x => cellActive h floor y x

/-- No two active cells meet only at a corner: around every interior grid
corner, the two diagonal activity patterns are excluded. -/
def diagContactFree (h : HeightMap) (floor : ℚ) : Bool :=
  (List.range (h.rows - 1)).all fun y =>
    (List.range (h.cols - 1)).all fun x =>
      !(cellActive h floor y x && cellActive h floor (y + 1) (x + 1) &&
        !cellActive h floor y (x + 1) && !cellActive h floor (y + 1) x) &&
      !(cellActive h floor y (x + 1) && cellActive h floor (y + 1) x &&
        !cellActive h floor y x && !cellActive h floor (y + 1) (x + 1))

/-- The number of triangles containing edge `{u, v}` that cell `(y, x)`
contributes to the emitted list: its `cellTris` count when active, else 0. -/
def cellContrib (A : ℕ → ℕ → Bool) (R C : ℕ) (u v : Vert) (y x : ℕ) : ℕ :=
  if A y x = true then edgeCount (cellTris A R C y x) u v else 0

/-- Number of supported cells in the clamped patch
`heightmap[y0:y1, x0:x1]` (used for `local_support`). -/
def rectSupportCount (h : HeightMap) (floor : ℚ) (y0 y1 x0 x1 : ℕ) : ℕ :=
  ((List.range (y1 - y0)).map fun dy =>
    (((List.range (x1 - x0)).map fun dx =>
      if supported h floor (y0 + dy) (x0 + dx) = true then 1 else 0).sum)).sum

/-- Mirrors `_top_vertex_confidence`: zero on non-positive height, otherwise
`clip((0.34 + 0.66*base) * (0.68 + 0.32*local_support), 0, 1)` where `base` is
the floor-normalized height and `local_support` the supported fraction of the
in-bounds 3x3 neighbourhood. -/
def topVertexConfidence (h : HeightMap) (floor : ℚ) (y x : ℕ) : ℚ :=
  if h.val y x ≤ 0 then 0
  else
    let base := clip01 (divQ (subQ (h.val y x) floor) (qmax (Rat.divInt 1 1000000) (subQ 1 floor)))
    let y0 := y - 1
    let y1 := min h.rows (y + 2)
    let x0 := x - 1
    let x1 := min h.cols (x + 2)
    let localSupport := divQ (natToQ (rectSupportCount h floor y0 y1 x0 x1))
      (natToQ ((y1 - y0) * (x1 - x0)))
    clip01 (mulQ (addQ (Rat.divInt 17 50) (mulQ (Rat.divInt 33 50) base))
      (addQ (Rat.divInt 17 25) (mulQ (Rat.divInt 8 25) localSupport)))

/-- Modelled from the claim's formula for the top-vertex confidence:
`clip((0.34 + 0.66*base) * edge_factor, 0, 1)` with
`edge_factor = 0.68 + 0.32*local_support`, stated without any early return for
non-positive heights. -/
def claimTopConfidence (h : HeightMap) (floor : ℚ) (y x : ℕ) : ℚ :=
  let base := clip01 (divQ (subQ (h.val y x) floor) (qmax (Rat.divInt 1 1000000) (subQ 1 floor)))
  let y0 := y - 1
  let y1 := min h.rows (y + 2)
  let x0 := x - 1
  let x1 := min h.cols (x + 2)
  let localSupport := divQ (natToQ (rectSupportCount h floor y0 y1 x0 x1))
    (natToQ ((y1 - y0) * (x1 - x0)))
  clip01 (mulQ (addQ (Rat.divInt 17 50) (mulQ (Rat.divInt 33 50) base))
    (addQ (Rat.divInt 17 25) (mulQ (Rat.divInt 8 25) localSupport)))

/-- The `vertex_confidence` array of `_heightmap_to_mesh`: the top layer
(indices below `rows*cols`) carries `_top_vertex_confidence`, the bottom layer
the fixed value 0.08. -/
def vertexConfidence (h : HeightMap) (floor : ℚ) (i : ℕ) : ℚ :=
  if i < h.rows * h.cols then topVertexConfidence h floor (i / h.cols) (i % h.cols)
  else Rat.divInt 2 25

/-- Round half to even on integers represented by a rational argument:
the integer nearest to `q`, ties to the even integer. -/
def roundHalfEven (q : ℚ) : ℤ :=
  let f := q.floor
  let r := subQ q (intToQ f)
  if r < Rat.divInt 1 2 then f
  else if Rat.divInt 1 2 < r then f + 1
  else if f % 2 = 0 then f else f + 1

/-- Python `round(x, 4)` idealized on rationals (half-even at ties), written
with `Rat.divInt` so that it reduces in the kernel. -/
def round4 (q : ℚ) : ℚ := Rat.divInt (roundHalfEven (mulQ q 10000)) 10000

/-- Mirrors `np.histogram(used, bins=np.linspace(0, 1, 11))`: ten bins over
`[0, 1]`, each half-open except the last, which is closed. -/
def histogram10 (l : List ℚ) : List ℕ :=
  (List.range 10).map fun i =>
    l.countP fun c =>
      decide (Rat.divInt i 10 ≤ c) &&
        (decide (c < Rat.divInt (i + 1) 10) || (decide (i = 9) && decide (c ≤ 1)))

/-- The record returned by `_build_confidence_report`. The empty-input branch
of the source omits the `vertex_count` and histogram keys; that branch is
modelled with `vertexCount = 0` and an empty histogram. -/
structure ConfidenceReport where
  overallConfidence : ℚ
  observedFrac : ℚ
  adjustedFrac : ℚ
  inferredFrac : ℚ
  vertexCount : ℕ
  histogram : List ℕ
  observedThreshold : ℚ
  adjustedThreshold : ℚ
  surfaceFloor : ℚ
  mode : String
deriving DecidableEq

/-- Mirrors `_build_confidence_report` over the used-vertex confidences. -/
def buildConfidenceReport (used : List ℚ) (floor : ℚ) : ConfidenceReport :=
  if used.isEmpty then
    { overallConfidence := 0
      observedFrac := 0
      adjustedFrac := 0
      inferredFrac := 1
      vertexCount := 0
      histogram := []
      observedThreshold := Rat.divInt 18 25
      adjustedThreshold := Rat.divInt 8 25
      surfaceFloor := floor
      mode := "single-view-heightmap" }
  else
    let n : ℚ := natToQ used.length
    { overallConfidence := round4 (divQ (sumQ used) n)
      observedFrac := round4 (divQ (natToQ
        (used.countP fun c => decide (Rat.divInt 18 25 ≤ c))) n)
      adjustedFrac := round4 (divQ (natToQ
        (used.countP fun c => decide (Rat.divInt 8 25 ≤ c) && decide (c < Rat.divInt 18 25))) n)
      inferredFrac := round4 (divQ (natToQ
        (used.countP fun c => decide (c < Rat.divInt 8 25))) n)
      vertexCount := used.length
      histogram := histogram10 used
      observedThreshold := Rat.divInt 18 25
      adjustedThreshold := Rat.divInt 8 25
      surfaceFloor := round4 floor
      mode := "single-view-heightmap" }

/-- Insert into an ascending list, keeping it ascending. -/
def insertAsc {α : Type} (le : α → α → Bool) (a : α) : List α → List α
  | [] => [a]
  | b :: t => if le a b = true then a :: b :: t else b :: insertAsc le a t

/-- Insertion sort (structural recursion, so it reduces in the kernel). -/
def sortAsc {α : Type} (le : α → α → Bool) (l : List α) : List α :=
  l.foldr (insertAsc le) []

/-- Ascending sort with duplicates removed; mirrors `np.unique` on an index
array. -/
def sortedDedup (l : List ℕ) : List ℕ :=
  (sortAsc (fun a b => decide (a ≤ b)) l).dedup

/-- Mirrors `np.unique(faces_array.reshape(-1))`: the sorted distinct vertex
indices referenced by the face list. -/
def usedVertexIndices (tris : List (ℕ × ℕ × ℕ)) : List ℕ :=
  sortedDedup ((tris.map fun t => [t.1, t.2.1, t.2.2]).flatten)

/-- Mirrors `_heightmap_to_mesh` end to end: the `rows < 2 or cols < 2` guard
raising `ValueError`, then the emitted face list together with the confidence
report over the used vertices. -/
def heightmapToMesh (h : HeightMap) (floor : ℚ) :
    Except String (List (ℕ × ℕ × ℕ) × ConfidenceReport) :=
  if h.rows < 2 ∨ h.cols < 2 then Except.error r"Heightmap is too small to build a mesh"
  else
    let tris := meshTris h floor
    let used := usedVertexIndices tris
    Except.ok (tris, buildConfidenceReport (used.map (vertexConfidence h floor)) floor)

/-- Grid cells in row-major order (the scan order of the source loops). -/
def gridCellList (R C : ℕ) : List (ℕ × ℕ) :=
  ((List.range R).map fun y => (List.range C).map fun x => (y, x)).flatten

/-- The set of all grid cells. -/
def gridCellSet (R C : ℕ) : Finset (ℕ × ℕ) :=
  (gridCellList R C).toFinset

/-- The positive heightmap samples `heightmap[heightmap > 0]`, row-major. -/
def positives (h : HeightMap) : List ℚ :=
  ((List.range h.rows).map fun y =>
    (((List.range h.cols).map fun x => h.val y x).filter fun v => decide (0 < v))).flatten

/-- Mirrors `np.percentile(l, p)` with linear interpolation between order
statistics. -/
def percentile (l : List ℚ) (p : ℚ) : ℚ :=
  let s := sortAsc (fun a b => decide (a ≤ b)) l
  let idx : ℚ := divQ (mulQ (natToQ (s.length - 1)) p) 100
  let i : ℕ := idx.floor.toNat
  let lo := s.getD i 0
  let hi := s.getD (i + 1) lo
  addQ lo (mulQ (subQ idx (natToQ i)) (subQ hi lo))

/-- The mask floor of `_clean_heightmap`:
`max(0.008, 0.35 * 8th percentile of positives)`. -/
def maskFloor (h : HeightMap) : ℚ :=
  qmax (Rat.divInt 1 125) (mulQ (percentile (positives h) 8) (Rat.divInt 7 20))

/-- The binary mask `heightmap > mask_floor` as a cell set. -/
def binaryMaskSet (h : HeightMap) (floor : ℚ) : Finset (ℕ × ℕ) :=
  (gridCellSet h.rows h.cols).filter fun p => floor < h.val p.1 p.2

/-- Whether some 4-neighbour of `p` is in `s`.  For `p` on the grid edge the
truncated-subtraction neighbour degenerates to `p` itself, which only ever
re-adds a member and so is harmless. -/
def neighborIn (s : Finset (ℕ × ℕ)) (p : ℕ × ℕ) : Bool :=
  decide ((p.1 + 1, p.2) ∈ s) || decide ((p.1 - 1, p.2) ∈ s) ||
  decide ((p.1, p.2 + 1) ∈ s) || decide ((p.1, p.2 - 1) ∈ s)

/-- One breadth-first expansion step: add every allowed cell adjacent to the
current frontier set. -/
def growOnce (ok : Finset (ℕ × ℕ)) (s : Finset (ℕ × ℕ)) : Finset (ℕ × ℕ) :=
  s ∪ ok.filter fun p => neighborIn s p = true

/-- Breadth-first reachable set inside `ok` from `seeds` after `n` expansion
steps.  With `n = R*C` steps this is the full flood fill of the source BFS. -/
def reachSet (ok : Finset (ℕ × ℕ)) (seeds : Finset (ℕ × ℕ)) : ℕ → Finset (ℕ × ℕ)
  | 0 => seeds
  | n + 1 => growOnce ok (reachSet ok seeds n)

/-- The 4-connected component of `mask` containing `p`. -/
def componentOf (mask : Finset (ℕ × ℕ)) (p : ℕ × ℕ) (fuel : ℕ) : Finset (ℕ × ℕ) :=
  reachSet mask {p} fuel

/-- Mirrors `_largest_connected_component`: scan cells row-major, flood-fill
each unvisited masked cell, keep the first component of maximal size. -/
def largestComponent (R C : ℕ) (mask : Finset (ℕ × ℕ)) : Finset (ℕ × ℕ) :=
  ((gridCellList R C).foldl
    (fun st p =>
      if p ∈ mask ∧ p ∉ st.1 then
        let comp := componentOf mask p (R * C)
        (st.1 ∪ comp, if st.2.card < comp.card then comp else st.2)
      else st)
    ((∅ : Finset (ℕ × ℕ)), (∅ : Finset (ℕ × ℕ)))).2

/-- Whether `p` lies on the border of the `R x C` grid. -/
def isBorderCell (R C : ℕ) (p : ℕ × ℕ) : Prop :=
  p.1 = 0 ∨ p.1 = R - 1 ∨ p.2 = 0 ∨ p.2 = C - 1

instance (R C : ℕ) (p : ℕ × ℕ) : Decidable (isBorderCell R C p) := by
  unfold isBorderCell; infer_instance

/-- The flood fill of `_fill_holes`: complement cells reachable from the grid
border. -/
def outsideSet (R C : ℕ) (mask : Finset (ℕ × ℕ)) : Finset (ℕ × ℕ) :=
  reachSet (gridCellSet R C \ mask)
    ((gridCellSet R C \ mask).filter fun p => isBorderCell R C p) (R * C)

/-- Mirrors `_fill_holes`: the mask plus every enclosed complement cell. -/
def fillHolesSet (R C : ℕ) (mask : Finset (ℕ × ℕ)) : Finset (ℕ × ℕ) :=
  mask ∪ (gridCellSet R C \ mask).filter fun p => p ∉ outsideSet R C mask

/-- The final mask built inside `_clean_heightmap` when it cleans: hole-filled
largest component of the binary mask. -/
def cleanedMaskSet (h : HeightMap) : Finset (ℕ × ℕ) :=
  fillHolesSet h.rows h.cols (largestComponent h.rows h.cols (binaryMaskSet h (maskFloor h)))

/-- Rows of the grid containing at least one cell of `mask`, ascending. -/
def occupiedRows (R C : ℕ) (mask : Finset (ℕ × ℕ)) : List ℕ :=
  (List.range R).filter fun y => (List.range C).any fun x => decide ((y, x) ∈ mask)

/-- Columns of the grid containing at least one cell of `mask`, ascending. -/
def occupiedCols (R C : ℕ) (mask : Finset (ℕ × ℕ)) : List ℕ :=
  (List.range C).filter fun x => (List.range R).any fun y => decide ((y, x) ∈ mask)

/-- Mirrors `_clean_heightmap`: early return on fewer than 24 positive
samples or an empty binary mask, otherwise mask to the hole-filled largest
component and crop to its bounding box padded by 8 cells. -/
def cleanHeightmap (h : HeightMap) : HeightMap :=
  if (positives h).length < 24 then h
  else
    let binary := binaryMaskSet h (maskFloor h)
    if binary = ∅ then h
    else
      let lcc := largestComponent h.rows h.cols binary
      if lcc = ∅ then h
      else
        let mask := fillHolesSet h.rows h.cols lcc
        let ys := occupiedRows h.rows h.cols mask
        let xs := occupiedCols h.rows h.cols mask
        let y0 := ys.headD 0 - 8
        let y1 := min h.rows (ys.getLastD 0 + 8 + 1)
        let x0 := xs.headD 0 - 8
        let x1 := min h.cols (xs.getLastD 0 + 8 + 1)
        { rows := y1 - y0
          cols := x1 - x0
          val := fun y x =>
            if (y0 + y, x0 + x) ∈ mask then h.val (y0 + y) (x0 + x) else 0 }

/-- 4-adjacency of grid cells. -/
def adjacentCells (p q : ℕ × ℕ) : Prop :=
  (p.1 = q.1 ∧ (p.2 + 1 = q.2 ∨ q.2 + 1 = p.2)) ∨
  (p.2 = q.2 ∧ (p.1 + 1 = q.1 ∨ q.1 + 1 = p.1))

/-- Cell `p` is reachable from some border cell by 4-connected moves staying
inside the region `P`. -/
def ReachableFromBorder (R C : ℕ) (P : ℕ × ℕ → Prop) (p : ℕ × ℕ) : Prop :=
  ∃ b : ℕ × ℕ, isBorderCell R C b ∧ P b ∧
    Relation.ReflTransGen (fun u v => adjacentCells u v ∧ P v) b p

/-- A 1x1 all-zero heightmap (what a 1x1 black-pixel image extracts to). -/
def hmZero11 : HeightMap := ⟨1, 1, fun _ _ => 0⟩

/-- A 2x2 all-zero heightmap. -/
def hmZero22 : HeightMap := ⟨2, 2, fun _ _ => 0⟩

/-- A 2x2 constant heightmap above the surface floor. -/
def hmOne22 : HeightMap := ⟨2, 2, fun _ _ => 1⟩

/-- A 3x3 heightmap supported on two opposite corners only: its two active
cells meet only at the central corner. -/
def hmDiag33 : HeightMap :=
  ⟨3, 3, fun y x => if (y = 0 ∧ x = 0) ∨ (y = 2 ∧ x = 2) then 1 else 0⟩

/-- A 2x2 heightmap that is zero at `(0, 0)` and supported elsewhere. -/
def hmStep22 : HeightMap :=
  ⟨2, 2, fun y x => if y = 0 ∧ x = 0 then 0 else 1⟩

/-- A job as it reaches the failure handler after its first lease. -/
def sampleLeasedJob : AsyncJob :=
  { jobType := "reconstruct"
    status := "running"
    payload := "payload"
    resultJson := none
    attempts := 1
    maxAttempts := 3
    deadLetter := false
    error := none
    availableAt := 0
    updatedAt := 0
    finishedAt := none }

/-- A triangulated cube: 12 triangular faces. -/
def cubeMesh : TriMesh := ⟨12, 7⟩

/-- A sample handler error message. -/
def failMsg : String := "boom"

/-! ## Theorems -/

/-- The executable rational maximum agrees with the order-theoretic one. -/
theorem qmax_eq (a b : ℚ) : qmax a b = max a b := by
  unfold qmax
  split_ifs with h
  · exact (max_eq_right h).symm
  · exact (max_eq_left (le_of_not_le h)).symm

/-- The executable rational minimum agrees with the order-theoretic one. -/
theorem qmin_eq (a b : ℚ) : qmin a b = min a b := by
  unfold qmin
  split_ifs with h
  · exact (min_eq_left h).symm
  · exact (min_eq_right (le_of_not_le h)).symm

/-- The kernel-reducible integer embedding agrees with the coercion. -/
theorem intToQ_eq (z : ℤ) : intToQ z = (z : ℚ) := by
  unfold intToQ
  rw [Rat.divInt_one]

/-- The kernel-reducible natural embedding agrees with the coercion. -/
theorem natToQ_eq (n : ℕ) : natToQ n = (n : ℚ) := by
  unfold natToQ
  rw [Rat.divInt_one]
  norm_cast

/-- The kernel-reducible addition agrees with `+`. -/
theorem addQ_eq (a b : ℚ) : addQ a b = a + b := by
  have h1 : ((a.den : ℚ)) ≠ 0 := by
    exact_mod_cast a.den_nz
  have h2 : ((b.den : ℚ)) ≠ 0 := by
    exact_mod_cast b.den_nz
  unfold addQ
  rw [Rat.divInt_eq_div]
  push_cast
  conv_rhs => rw [← Rat.num_div_den a, ← Rat.num_div_den b]
  field_simp

/-- The kernel-reducible subtraction agrees with `-`. -/
theorem subQ_eq (a b : ℚ) : subQ a b = a - b := by
  have h1 : ((a.den : ℚ)) ≠ 0 := by
    exact_mod_cast a.den_nz
  have h2 : ((b.den : ℚ)) ≠ 0 := by
    exact_mod_cast b.den_nz
  unfold subQ
  rw [Rat.divInt_eq_div]
  push_cast
  conv_rhs => rw [← Rat.num_div_den a, ← Rat.num_div_den b]
  field_simp
  ring

/-- The kernel-reducible multiplication agrees with `*`. -/
theorem mulQ_eq (a b : ℚ) : mulQ a b = a * b := by
  have h1 : ((a.den : ℚ)) ≠ 0 := by
    exact_mod_cast a.den_nz
  have h2 : ((b.den : ℚ)) ≠ 0 := by
    exact_mod_cast b.den_nz
  unfold mulQ
  rw [Rat.divInt_eq_div]
  push_cast
  conv_rhs => rw [← Rat.num_div_den a, ← Rat.num_div_den b]
  field_simp

/-- The kernel-reducible division agrees with `/` (both send division by zero
to zero). -/
theorem divQ_eq (a b : ℚ) : divQ a b = a / b := by
  by_cases hb : b = 0
  · subst hb
    unfold divQ
    rw [show (0 : ℚ).num = 0 from rfl, mul_zero, Rat.divInt_zero, div_zero]
  · have h1 : ((a.den : ℚ)) ≠ 0 := by
      exact_mod_cast a.den_nz
    have h2 : ((b.den : ℚ)) ≠ 0 := by
      exact_mod_cast b.den_nz
    have h3 : ((b.num : ℚ)) ≠ 0 := by
      exact_mod_cast Rat.num_ne_zero.mpr hb
    unfold divQ
    rw [Rat.divInt_eq_div]
    push_cast
    conv_rhs => rw [← Rat.num_div_den a, ← Rat.num_div_den b]
    field_simp

/-- The kernel-reducible list sum agrees with `List.sum`. -/
theorem sumQ_eq (l : List ℚ) : sumQ l = l.sum := by
  induction l with
  | nil => rfl
  | cons a t ih =>
    unfold sumQ at ih ⊢
    rw [List.foldr_cons, addQ_eq, ih, List.sum_cons]

/-- C10: every job created by `enqueue_job` starts queued with zero attempts,
no dead-letter flag, no result, and `available_at` equal to the enqueue time,
hence is immediately lease-eligible. -/
theorem c10_enqueue_initial_state (jobType payload : String) (maxAttempts : ℕ) (now : ℤ) :
    (enqueueJob jobType payload maxAttempts now).status = "queued" ∧
    (enqueueJob jobType payload maxAttempts now).attempts = 0 ∧
    (enqueueJob jobType payload maxAttempts now).deadLetter = false ∧
    (enqueueJob jobType payload maxAttempts now).resultJson = none ∧
    (enqueueJob jobType payload maxAttempts now).availableAt = now ∧
    leaseEligible (enqueueJob jobType payload maxAttempts now) now :=
  ⟨rfl, rfl, rfl, rfl, rfl, rfl, rfl, le_refl now⟩

/-- C6: with the default calibration profile (slope 0.92, intercept 0.04),
calibration is monotone, stays in `[0, 1]`, and equals the clipped affine
map. -/
theorem c6_calibrate_monotone_bounded (a b : ℚ) (hab : a ≤ b) :
    calibrate defaultSlope defaultIntercept a ≤ calibrate defaultSlope defaultIntercept b ∧
    0 ≤ calibrate defaultSlope defaultIntercept a ∧
    calibrate defaultSlope defaultIntercept a ≤ 1 ∧
    calibrate defaultSlope defaultIntercept a =
      max 0 (min 1 (defaultSlope * a + defaultIntercept)) := by
  have hc : ∀ raw : ℚ, calibrate defaultSlope defaultIntercept raw =
      max 0 (min 1 (defaultSlope * raw + defaultIntercept)) := by
    intro raw
    rw [calibrate, qmax_eq, qmin_eq]
  refine ⟨?_, ?_, ?_, hc a⟩
  · rw [hc a, hc b]
    refine max_le_max (le_refl 0) (min_le_min (le_refl 1) ?_)
    unfold defaultSlope defaultIntercept
    linarith
  · rw [hc a]
    exact le_max_left _ _
  · rw [hc a]
    exact max_le (by norm_num) (min_le_left _ _)

/-- Witness for C6 at the concrete inputs 0 and 1. -/
theorem c6_calibrate_witness :
    calibrate defaultSlope defaultIntercept 0 ≤ calibrate defaultSlope defaultIntercept 1 ∧
    0 ≤ calibrate defaultSlope defaultIntercept 0 ∧
    calibrate defaultSlope defaultIntercept 0 ≤ 1 ∧
    calibrate defaultSlope defaultIntercept 0 =
      max 0 (min 1 (defaultSlope * 0 + defaultIntercept)) :=
  c6_calibrate_monotone_bounded 0 1 (by decide)

/-- C4: once a leased job's handler has raised (so its attempt counter is at
least 1), `_mark_failure` either requeues it with
`available_at = now + min(30, 2^attempts)` and the error truncated to 2000
characters, or — when attempts have reached `max_attempts` — marks it dead
with the dead-letter flag set and the same truncated error. -/
theorem c4_mark_failure_backoff (j : AsyncJob) (err : String) (now : ℤ)
    (h1 : 1 ≤ j.attempts) :
    (j.attempts < j.maxAttempts →
      markFailure j err now =
        { j with
          status := "queued"
          availableAt := now + (min 30 (2 ^ j.attempts) : ℕ)
          error := some (err.take 2000)
          updatedAt := now }) ∧
    (j.maxAttempts ≤ j.attempts →
      markFailure j err now =
        { j with
          status := "dead"
          deadLetter := true
          error := some (err.take 2000)
          updatedAt := now
          finishedAt := some now }) := by
  constructor
  · intro hlt
    have hpy : pyOr j.maxAttempts 1 = j.maxAttempts := by
      unfold pyOr; rw [if_neg (by omega)]
    unfold markFailure
    rw [hpy, if_pos hlt, Nat.max_eq_right h1]
  · intro hge
    have hno : ¬ j.attempts < pyOr j.maxAttempts 1 := by
      unfold pyOr; split_ifs <;> omega
    unfold markFailure
    rw [if_neg hno]

/-- Witness for C4: a first-attempt failure of a three-attempt job requeues
with a 2-second backoff. -/
theorem c4_mark_failure_witness :
    markFailure sampleLeasedJob failMsg 5 =
      { sampleLeasedJob with
        status := "queued"
        availableAt := 5 + (min 30 (2 ^ sampleLeasedJob.attempts) : ℕ)
        error := some (failMsg.take 2000)
        updatedAt := 5 } :=
  (c4_mark_failure_backoff sampleLeasedJob failMsg 5 (by decide)).1 (by decide)

/-- C8: `_decimate` returns its input unchanged when the ratio is at least
0.999 or the clamped target `max(128, int(ratio * faces))` is at least the
face count (in particular whenever the mesh has at most 128 faces), and falls
back to the input when the decimation call fails or returns an empty mesh. -/
theorem c8_decimate_guards (simplify : TriMesh → ℕ → Option TriMesh) (m : TriMesh) (r : ℚ) :
    (999 / 1000 ≤ r ∨ (m.faceCount : ℤ) ≤ max 128 (pyInt ((m.faceCount : ℚ) * r)) →
      decimate simplify m r = m) ∧
    (m.faceCount ≤ 128 → decimate simplify m r = m) ∧
    ((∀ t, simplify m t = none ∨ ∃ d, simplify m t = some d ∧ d.faceCount = 0) →
      decimate simplify m r = m) := by
  have hmain : (999 / 1000 ≤ r ∨ (m.faceCount : ℤ) ≤ max 128 (pyInt ((m.faceCount : ℚ) * r))) →
      decimate simplify m r = m := by
    intro hcond
    simp only [decimate]
    split_ifs with hr ht
    · rfl
    · rfl
    · exact absurd (hcond.resolve_left hr) ht
  refine ⟨hmain, ?_, ?_⟩
  · intro hsmall
    refine hmain (Or.inr ?_)
    calc (m.faceCount : ℤ) ≤ 128 := by exact_mod_cast hsmall
    _ ≤ max 128 (pyInt ((m.faceCount : ℚ) * r)) := le_max_left _ _
  · intro hfail
    simp only [decimate]
    split_ifs with hr ht
    · rfl
    · rfl
    · rcases hfail (max 128 (pyInt ((m.faceCount : ℚ) * r))).toNat with hnone | ⟨d, hd, hdz⟩
      · rw [hnone]
      · rw [hd]
        simp [hdz]

/-- Witness for C8: a triangulated cube (12 faces, below the 128-face floor)
passes through `_decimate` untouched even with a failing decimation call. -/
theorem c8_decimate_witness :
    decimate (fun _ _ => none) cubeMesh (1 / 2) = cubeMesh :=
  (c8_decimate_guards (fun _ _ => none) cubeMesh (1 / 2)).2.1 (by decide)

/-- C5 (amended): the top-vertex confidence equals the claimed clipped formula
exactly on cells of positive height and is 0 on cells of non-positive height;
every bottom-layer vertex gets the fixed confidence 0.08. -/
theorem c5_top_confidence_amended (h : HeightMap) (f : ℚ) (y x : ℕ) :
    topVertexConfidence h f y x =
      (if 0 < h.val y x then claimTopConfidence h f y x else 0) ∧
    ∀ k : ℕ, vertexConfidence h f (h.rows * h.cols + k) = 2 / 25 := by
  constructor
  · by_cases hx : h.val y x ≤ 0
    · rw [topVertexConfidence, if_pos hx, if_neg (not_lt.mpr hx)]
    · rw [topVertexConfidence, if_neg hx, if_pos (lt_of_not_le hx)]
      rfl
  · intro k
    rw [vertexConfidence, if_neg (by omega), Rat.divInt_eq_div]
    norm_num

/-- C5 counterexample: at a zero-height cell whose neighbourhood is partly
supported, the code returns confidence 0 while the claimed formula gives
`0.3128`. -/
theorem c5_counterexample_zero_height :
    topVertexConfidence hmStep22 surfaceFloorDefault 0 0 = 0 ∧
    claimTopConfidence hmStep22 surfaceFloorDefault 0 0 = Rat.divInt 391 1250 ∧
    (Rat.divInt 391 1250 : ℚ) ≠ 0 := by
  refine ⟨by decide, by decide, by decide⟩

/-- C2 counterexample: the claim's example input — the 1x1 all-zero heightmap
from a 1x1 black-pixel image — makes `_heightmap_to_mesh` raise the
too-small `ValueError` instead of producing a fallback mesh. -/
theorem c2_counterexample_too_small_raises :
    heightmapToMesh hmZero11 surfaceFloorDefault =
      Except.error r"Heightmap is too small to build a mesh" := by
  rfl

/-- Evaluation step: the all-zero 2x2 heightmap activates no cell, so the
mesher emits the fallback triangles. -/
theorem meshTris_hmZero22_eval :
    meshTris hmZero22 surfaceFloorDefault = fallbackTris 2 2 := by
  decide

/-- Evaluation step: the fallback triangles reference seven distinct
vertices. -/
theorem usedVertexIndices_fallback_eval :
    usedVertexIndices (fallbackTris 2 2) = [0, 1, 2, 3, 4, 5, 6] := by
  decide

/-- Evaluation step: the used fallback vertices carry four zero top
confidences and three 0.08 bottom confidences. -/
theorem usedConfidences_hmZero22_eval :
    [0, 1, 2, 3, 4, 5, 6].map (vertexConfidence hmZero22 surfaceFloorDefault) =
      [0, 0, 0, 0, Rat.divInt 2 25, Rat.divInt 2 25, Rat.divInt 2 25] := by
  decide

/-- C2 (amended): an all-zero heightmap of admissible size (2x2) does not
raise: it yields the non-empty three-triangle fallback set, and its
confidence report is built over the seven used fallback vertices by the
non-empty branch — seven counted vertices and overall confidence 0.0343, not
0.0 via the empty-report branch. -/
theorem c2_allzero_fallback_amended :
    heightmapToMesh hmZero22 surfaceFloorDefault =
      Except.ok (fallbackTris 2 2,
        buildConfidenceReport [0, 0, 0, 0, Rat.divInt 2 25, Rat.divInt 2 25, Rat.divInt 2 25]
          surfaceFloorDefault) ∧
    fallbackTris 2 2 ≠ [] ∧
    (buildConfidenceReport [0, 0, 0, 0, Rat.divInt 2 25, Rat.divInt 2 25, Rat.divInt 2 25]
      surfaceFloorDefault).vertexCount = 7 ∧
    (buildConfidenceReport [0, 0, 0, 0, Rat.divInt 2 25, Rat.divInt 2 25, Rat.divInt 2 25]
      surfaceFloorDefault).overallConfidence = Rat.divInt 343 10000 ∧
    (Rat.divInt 343 10000 : ℚ) ≠ 0 := by
  refine ⟨?_, by decide, by decide, by decide, by decide⟩
  unfold heightmapToMesh
  rw [if_neg (by decide)]
  dsimp only
  rw [meshTris_hmZero22_eval, usedVertexIndices_fallback_eval, usedConfidences_hmZero22_eval]

/-- C3 counterexample: for the used-confidence array `[0.8, 0.5, 0.1]` the
returned (4-decimal rounded) ratios are each 0.3333, so their sum misses 1 by
0.0001, far beyond the claimed 1e-6 tolerance. -/
theorem c3_counterexample_rounded_sum :
    (buildConfidenceReport [Rat.divInt 4 5, Rat.divInt 1 2, Rat.divInt 1 10]
      surfaceFloorDefault).observedFrac = Rat.divInt 3333 10000 ∧
    (buildConfidenceReport [Rat.divInt 4 5, Rat.divInt 1 2, Rat.divInt 1 10]
      surfaceFloorDefault).adjustedFrac = Rat.divInt 3333 10000 ∧
    (buildConfidenceReport [Rat.divInt 4 5, Rat.divInt 1 2, Rat.divInt 1 10]
      surfaceFloorDefault).inferredFrac = Rat.divInt 3333 10000 ∧
    1 / 1000000 <
      |Rat.divInt 3333 10000 + Rat.divInt 3333 10000 + Rat.divInt 3333 10000 - (1 : ℚ)| := by
  refine ⟨by decide, by decide, by decide, ?_⟩
  rw [show (Rat.divInt 3333 10000 : ℚ) = 3333 / 10000 from by
    rw [Rat.divInt_eq_div]; norm_num]
  rw [show (3333 : ℚ) / 10000 + 3333 / 10000 + 3333 / 10000 - 1 = -(1 / 10000) by norm_num,
    abs_neg, abs_of_pos (show (0 : ℚ) < 1 / 10000 by norm_num)]
  norm_num

/-- Every used confidence lands in exactly one of the observed, adjusted and
inferred buckets, so the three bucket counts partition the array. -/
theorem countP_threshold_partition (l : List ℚ) :
    (l.countP fun c => decide (Rat.divInt 18 25 ≤ c)) +
      (l.countP fun c => decide (Rat.divInt 8 25 ≤ c) && decide (c < Rat.divInt 18 25)) +
      (l.countP fun c => decide (c < Rat.divInt 8 25)) = l.length := by
  have hlow : (Rat.divInt 8 25 : ℚ) ≤ Rat.divInt 18 25 := by
    rw [Rat.divInt_eq_div, Rat.divInt_eq_div]
    norm_num
  induction l with
  | nil => rfl
  | cons a t ih =>
    simp only [List.countP_cons, List.length_cons]
    by_cases h1 : (Rat.divInt 18 25 : ℚ) ≤ a
    · have h2 : ¬ a < (Rat.divInt 8 25 : ℚ) := by push_neg; linarith
      have h3 : ¬ a < (Rat.divInt 18 25 : ℚ) := not_lt.mpr h1
      simp [h1, h2, h3]
      omega
    · by_cases h2 : (Rat.divInt 8 25 : ℚ) ≤ a
      · have h3 : a < (Rat.divInt 18 25 : ℚ) := not_le.mp h1
        have h4 : ¬ a < (Rat.divInt 8 25 : ℚ) := not_lt.mpr h2
        simp [h1, h2, h3, h4]
        omega
      · have h3 : a < (Rat.divInt 8 25 : ℚ) := not_le.mp h2
        have h4 : ¬ (Rat.divInt 18 25 : ℚ) ≤ a := h1
        simp [h1, h2, h3, h4]
        omega

/-- Half-even rounding of a rational to an integer moves it by at most a
half. -/
theorem roundHalfEven_close (y : ℚ) : |(roundHalfEven y : ℚ) - y| ≤ 1 / 2 := by
  have hfl : ((y.floor : ℤ) : ℚ) ≤ y := Int.floor_le y
  have hfu : y < ((y.floor : ℤ) : ℚ) + 1 := Int.lt_floor_add_one y
  have hdef : roundHalfEven y =
      if subQ y (intToQ y.floor) < Rat.divInt 1 2 then y.floor
      else if Rat.divInt 1 2 < subQ y (intToQ y.floor) then y.floor + 1
      else if y.floor % 2 = 0 then y.floor else y.floor + 1 :=
    rfl
  have hhalf : (Rat.divInt 1 2 : ℚ) = 1 / 2 := by
    rw [Rat.divInt_eq_div]
    norm_num
  rw [hdef, subQ_eq, intToQ_eq, hhalf]
  split_ifs with hlt hgt hev
  · rw [abs_le]; constructor <;> push_cast <;> linarith
  · rw [abs_le]; constructor <;> push_cast <;> linarith
  · rw [abs_le]; constructor <;> push_cast <;> linarith
  · rw [abs_le]; constructor <;> push_cast <;> linarith

/-- Half-even rounding to four decimals moves a rational by at most half an
ulp of the fourth decimal place. -/
theorem round4_close (q : ℚ) : |round4 q - q| ≤ 1 / 20000 := by
  have h1 := roundHalfEven_close (q * 10000)
  have h2 : round4 q - q = ((roundHalfEven (q * 10000) : ℚ) - q * 10000) / 10000 := by
    unfold round4
    rw [mulQ_eq, Rat.divInt_eq_div]
    push_cast
    ring
  rw [h2, abs_div, abs_of_pos (show (0 : ℚ) < 10000 by norm_num)]
  calc |(roundHalfEven (q * 10000) : ℚ) - q * 10000| / 10000 ≤ (1 / 2) / 10000 := by gcongr
  _ = 1 / 20000 := by norm_num

/-- C3 (amended): the exact bucket counts partition the used vertices, so the
unrounded ratios sum to exactly 1; the returned ratios are each rounded to 4
decimals, so their sum equals 1 only to within 1.5e-4 (three half-ulps), not
1e-6. -/
theorem c3_ratio_sum_amended (l : List ℚ) (f : ℚ) :
    ((l.countP fun c => decide (Rat.divInt 18 25 ≤ c)) +
      (l.countP fun c => decide (Rat.divInt 8 25 ≤ c) && decide (c < Rat.divInt 18 25)) +
      (l.countP fun c => decide (c < Rat.divInt 8 25)) = l.length) ∧
    |(buildConfidenceReport l f).observedFrac + (buildConfidenceReport l f).adjustedFrac +
      (buildConfidenceReport l f).inferredFrac - 1| ≤ 3 / 20000 := by
  refine ⟨countP_threshold_partition l, ?_⟩
  by_cases hl : l.isEmpty
  · unfold buildConfidenceReport
    rw [if_pos hl]
    norm_num
  · unfold buildConfidenceReport
    rw [if_neg hl]
    dsimp only
    simp only [divQ_eq, natToQ_eq]
    have hn : ((l.length : ℚ)) ≠ 0 := by
      have : l ≠ [] := by
        intro h
        rw [h] at hl
        exact hl rfl
      have hpos : 0 < l.length := List.length_pos.mpr this
      exact_mod_cast Nat.pos_iff_ne_zero.mp hpos
    set o : ℚ := ((l.countP fun c => decide (Rat.divInt 18 25 ≤ c)) : ℚ) / (l.length : ℚ) with ho
    set a : ℚ := ((l.countP fun c =>
      decide (Rat.divInt 8 25 ≤ c) && decide (c < Rat.divInt 18 25)) : ℚ) / (l.length : ℚ) with ha
    set i : ℚ := ((l.countP fun c => decide (c < Rat.divInt 8 25)) : ℚ) / (l.length : ℚ) with hi
    have hsum : o + a + i = 1 := by
      rw [ho, ha, hi, div_add_div_same, div_add_div_same]
      rw [show ((l.countP fun c => decide (Rat.divInt 18 25 ≤ c)) : ℚ) +
          ((l.countP fun c =>
            decide (Rat.divInt 8 25 ≤ c) && decide (c < Rat.divInt 18 25)) : ℚ) +
          ((l.countP fun c => decide (c < Rat.divInt 8 25)) : ℚ) = (l.length : ℚ) by
        exact_mod_cast countP_threshold_partition l]
      exact div_self hn
    have hre : round4 o + round4 a + round4 i - 1 =
        (round4 o - o) + (round4 a - a) + (round4 i - i) := by
      rw [← hsum]; ring
    rw [hre]
    calc |(round4 o - o) + (round4 a - a) + (round4 i - i)|
        ≤ |round4 o - o| + |round4 a - a| + |round4 i - i| := abs_add_three _ _ _
    _ ≤ 1 / 20000 + 1 / 20000 + 1 / 20000 := by
        refine add_le_add (add_le_add (round4_close o) (round4_close a)) (round4_close i)
    _ = 3 / 20000 := by norm_num

/-- Membership in the row-major cell list is exactly being inside the grid. -/
theorem mem_gridCellList (R C : ℕ) (p : ℕ × ℕ) :
    p ∈ gridCellList R C ↔ p.1 < R ∧ p.2 < C := by
  unfold gridCellList
  simp only [List.mem_flatten, List.mem_map, List.mem_range]
  constructor
  · rintro ⟨l, ⟨y, hy, rfl⟩, hp⟩
    simp only [List.mem_map, List.mem_range] at hp
    obtain ⟨x, hx, rfl⟩ := hp
    exact ⟨hy, hx⟩
  · rintro ⟨hp1, hp2⟩
    refine ⟨(List.range C).map fun x => (p.1, x), ⟨p.1, hp1, rfl⟩, ?_⟩
    simp only [List.mem_map, List.mem_range]
    exact ⟨p.2, hp2, rfl⟩

/-- Membership in the grid cell set is exactly being inside the grid. -/
theorem mem_gridCellSet (R C : ℕ) (p : ℕ × ℕ) :
    p ∈ gridCellSet R C ↔ p.1 < R ∧ p.2 < C := by
  unfold gridCellSet
  rw [List.mem_toFinset, mem_gridCellList]

/-- One expansion step only grows the reachable set. -/
theorem reachSet_mono_succ (ok seeds : Finset (ℕ × ℕ)) (n : ℕ) :
    reachSet ok seeds n ⊆ reachSet ok seeds (n + 1) := by
  intro p hp
  simp only [reachSet, growOnce]
  exact Finset.mem_union_left _ hp

/-- The reachable sets form an increasing chain. -/
theorem reachSet_mono (ok seeds : Finset (ℕ × ℕ)) {m n : ℕ} (h : m ≤ n) :
    reachSet ok seeds m ⊆ reachSet ok seeds n := by
  induction n with
  | zero =>
    have : m = 0 := Nat.le_zero.mp h
    subst this
    exact Finset.Subset.refl _
  | succ n ih =>
    by_cases hm : m ≤ n
    · exact (ih hm).trans (reachSet_mono_succ ok seeds n)
    · have : m = n + 1 := by omega
      subst this
      exact Finset.Subset.refl _

/-- Cells reached by the flood fill stay inside the allowed region. -/
theorem reachSet_subset_ok (ok seeds : Finset (ℕ × ℕ)) (hs : seeds ⊆ ok) (n : ℕ) :
    reachSet ok seeds n ⊆ ok := by
  induction n with
  | zero => exact hs
  | succ n ih =>
    intro p hp
    simp only [reachSet, growOnce] at hp
    rcases Finset.mem_union.mp hp with h | h
    · exact ih h
    · exact (Finset.mem_filter.mp h).1

/-- Soundness of the bounded flood fill: every cell it reaches is connected to
some seed by 4-adjacent steps that stay inside the final reachable set. -/
theorem reachSet_sound (ok seeds : Finset (ℕ × ℕ)) (fuel : ℕ) :
    ∀ n, n ≤ fuel → ∀ p ∈ reachSet ok seeds n,
      ∃ b ∈ seeds, Relation.ReflTransGen
        (fun u v => adjacentCells u v ∧ v ∈ reachSet ok seeds fuel) b p := by
  intro n
  induction n with
  | zero =>
    intro _ p hp
    exact ⟨p, hp, Relation.ReflTransGen.refl⟩
  | succ n ih =>
    intro hle p hp
    have hpfuel : p ∈ reachSet ok seeds fuel := reachSet_mono ok seeds hle hp
    simp only [reachSet, growOnce] at hp
    rcases Finset.mem_union.mp hp with h | h
    · exact ih (Nat.le_of_succ_le hle) p h
    · obtain ⟨hok, hnb⟩ := Finset.mem_filter.mp h
      simp only [neighborIn, Bool.or_eq_true, decide_eq_true_eq] at hnb
      rcases hnb with ((h1 | h1) | h1) | h1
      · obtain ⟨b, hb, hpath⟩ := ih (Nat.le_of_succ_le hle) _ h1
        exact ⟨b, hb, hpath.tail ⟨Or.inr ⟨rfl, Or.inr rfl⟩, hpfuel⟩⟩
      · by_cases hz : p.1 = 0
        · have heq : ((p.1 - 1, p.2) : ℕ × ℕ) = p := by
            rw [show p.1 - 1 = p.1 by omega]
          rw [heq] at h1
          exact ih (Nat.le_of_succ_le hle) p h1
        · obtain ⟨b, hb, hpath⟩ := ih (Nat.le_of_succ_le hle) _ h1
          exact ⟨b, hb, hpath.tail ⟨Or.inr ⟨rfl, Or.inl (by omega)⟩, hpfuel⟩⟩
      · obtain ⟨b, hb, hpath⟩ := ih (Nat.le_of_succ_le hle) _ h1
        exact ⟨b, hb, hpath.tail ⟨Or.inl ⟨rfl, Or.inr rfl⟩, hpfuel⟩⟩
      · by_cases hz : p.2 = 0
        · have heq : ((p.1, p.2 - 1) : ℕ × ℕ) = p := by
            rw [show p.2 - 1 = p.2 by omega]
          rw [heq] at h1
          exact ih (Nat.le_of_succ_le hle) p h1
        · obtain ⟨b, hb, hpath⟩ := ih (Nat.le_of_succ_le hle) _ h1
          exact ⟨b, hb, hpath.tail ⟨Or.inl ⟨rfl, Or.inl (by omega)⟩, hpfuel⟩⟩

/-- C7: the hole-filled mask has no interior holes — every in-grid cell left
in its complement is reachable from a border cell by 4-connected moves
through complement cells.  This covers in particular the final mask built by
`_clean_heightmap` whenever it cleans (at least 24 positive samples and a
non-empty binary mask), which is `fillHolesSet` of the largest component. -/
theorem c7_fill_holes_no_interior_holes (R C : ℕ) (mask : Finset (ℕ × ℕ)) (p : ℕ × ℕ)
    (h1 : p.1 < R) (h2 : p.2 < C) (hout : p ∉ fillHolesSet R C mask) :
    ReachableFromBorder R C (fun q => q.1 < R ∧ q.2 < C ∧ q ∉ fillHolesSet R C mask) p := by
  have hgrid : p ∈ gridCellSet R C := (mem_gridCellSet R C p).mpr ⟨h1, h2⟩
  have hpm : p ∉ mask := fun hm => hout (Finset.mem_union_left _ hm)
  have hpo : p ∈ outsideSet R C mask := by
    by_contra hno
    exact hout (Finset.mem_union_right _
      (Finset.mem_filter.mpr ⟨Finset.mem_sdiff.mpr ⟨hgrid, hpm⟩, hno⟩))
  have hseed_ok : (gridCellSet R C \ mask).filter (fun q => isBorderCell R C q) ⊆
      gridCellSet R C \ mask := Finset.filter_subset _ _
  have hmem : ∀ q, q ∈ outsideSet R C mask →
      q.1 < R ∧ q.2 < C ∧ q ∉ fillHolesSet R C mask := by
    intro q hq
    have hqok : q ∈ gridCellSet R C \ mask :=
      reachSet_subset_ok _ _ hseed_ok _ hq
    obtain ⟨hqg, hqm⟩ := Finset.mem_sdiff.mp hqok
    obtain ⟨hq1, hq2⟩ := (mem_gridCellSet R C q).mp hqg
    refine ⟨hq1, hq2, ?_⟩
    intro hqf
    rcases Finset.mem_union.mp hqf with hcontr | hcontr
    · exact hqm hcontr
    · exact (Finset.mem_filter.mp hcontr).2 hq
  obtain ⟨b, hb, hpath⟩ := reachSet_sound _ _ (R * C) (R * C) le_rfl p hpo
  obtain ⟨hbok, hbborder⟩ := Finset.mem_filter.mp hb
  refine ⟨b, hbborder, hmem b (reachSet_mono _ _ (Nat.zero_le _) hb), ?_⟩
  exact hpath.mono fun u v hv => ⟨hv.1, hmem v hv.2⟩

/-- Witness for C7 on a 3x3 grid whose mask is the single centre cell: the
corner of the complement is reachable from the border. -/
theorem c7_fill_holes_witness :
    ((0, 0) : ℕ × ℕ).1 < 3 ∧ ((0, 0) : ℕ × ℕ).2 < 3 ∧
    ((0, 0) : ℕ × ℕ) ∉ fillHolesSet 3 3 {(1, 1)} ∧
    ReachableFromBorder 3 3
      (fun q => q.1 < 3 ∧ q.2 < 3 ∧ q ∉ fillHolesSet 3 3 {(1, 1)}) (0, 0) :=
  ⟨by decide, by decide, by decide,
    c7_fill_holes_no_interior_holes 3 3 {(1, 1)} (0, 0) (by decide) (by decide) (by decide)⟩

/-- A conditional block is a sublist of its unconditional form. -/
theorem ite_sublist {α : Type} (c : Prop) [Decidable c] (l : List α) :
    (if c then l else []).Sublist l := by
  split_ifs
  · exact List.Sublist.refl l
  · exact List.nil_sublist l

/-- The triangles a cell actually emits form a sublist of the twelve possible
ones. -/
theorem cellTris_sublist (A : ℕ → ℕ → Bool) (R C y x : ℕ) :
    (cellTris A R C y x).Sublist (allTris y x) := by
  unfold cellTris allTris
  exact ((((List.Sublist.refl _).append (ite_sublist _ _)).append
    (ite_sublist _ _)).append (ite_sublist _ _)).append (ite_sublist _ _)

/-- Membership in the emitted triangle list comes from an active in-range
cell. -/
theorem mem_meshTrisS (R C : ℕ) (A : ℕ → ℕ → Bool) (t : Vert × Vert × Vert) :
    t ∈ meshTrisS R C A ↔
      ∃ y x, y < R - 1 ∧ x < C - 1 ∧ A y x = true ∧ t ∈ cellTris A R C y x := by
  unfold meshTrisS
  simp only [List.mem_flatten, List.mem_map, List.mem_range]
  constructor
  · rintro ⟨l, ⟨y, hy, rfl⟩, ht⟩
    simp only [List.mem_flatten, List.mem_map, List.mem_range] at ht
    obtain ⟨l2, ⟨x, hx, rfl⟩, ht2⟩ := ht
    by_cases hA : A y x = true
    · rw [if_pos hA] at ht2
      exact ⟨y, x, hy, hx, hA, ht2⟩
    · rw [if_neg hA] at ht2
      exact absurd ht2 (List.not_mem_nil t)
  · rintro ⟨y, x, hy, hx, hA, ht⟩
    refine ⟨_, ⟨y, hy, rfl⟩, ?_⟩
    simp only [List.mem_flatten, List.mem_map, List.mem_range]
    refine ⟨_, ⟨x, hx, rfl⟩, ?_⟩
    rw [if_pos hA]
    exact ht

/-- Every encoded vertex with in-grid coordinates indexes into the doubled
vertex array. -/
theorem encV_lt (R C : ℕ) (b : Bool) (vy vx : ℕ) (h1 : vy < R) (h2 : vx < C) :
    encV R C (b, vy, vx) < 2 * (R * C) := by
  have hmul : (vy + 1) * C ≤ R * C := Nat.mul_le_mul_right C h1
  rw [Nat.succ_mul] at hmul
  cases b <;> simp [encV] <;> omega

/-- C9: every triangle emitted by `_heightmap_to_mesh` — the fallback
triangles included — has all three vertex indices strictly below
`2 * rows * cols`, so face indexing into the vertex arrays stays in
bounds. -/
theorem c9_face_indices_bounded (h : HeightMap) (f : ℚ) (hR : 2 ≤ h.rows) (hC : 2 ≤ h.cols) :
    ∀ t ∈ meshTris h f,
      t.1 < 2 * (h.rows * h.cols) ∧ t.2.1 < 2 * (h.rows * h.cols) ∧
        t.2.2 < 2 * (h.rows * h.cols) := by
  intro t ht
  have hCC : h.cols < h.rows * h.cols := by
    have := Nat.mul_le_mul_right h.cols hR
    omega
  have hRC4 : 4 ≤ h.rows * h.cols := Nat.mul_le_mul hR hC
  simp only [meshTris] at ht
  by_cases hemp : (meshTrisS h.rows h.cols (cellActive h f)).map (encTri h.rows h.cols) = []
  · rw [if_pos hemp] at ht
    simp only [fallbackTris, List.mem_cons, List.not_mem_nil, or_false] at ht
    rcases ht with rfl | rfl | rfl <;> refine ⟨?_, ?_, ?_⟩ <;> dsimp only <;> omega
  · rw [if_neg hemp] at ht
    obtain ⟨t', ht', rfl⟩ := List.mem_map.mp ht
    obtain ⟨y, x, hy, hx, _, htc⟩ := (mem_meshTrisS _ _ _ t').mp ht'
    have htall := (cellTris_sublist (cellActive h f) h.rows h.cols y x).mem htc
    simp only [allTris, List.mem_append, List.mem_cons, List.not_mem_nil, or_false] at htall
    rcases htall with ((((rfl | rfl | rfl | rfl) | rfl | rfl) | rfl | rfl) | rfl | rfl) | rfl | rfl <;>
      exact ⟨encV_lt _ _ _ _ _ (by omega) (by omega), encV_lt _ _ _ _ _ (by omega) (by omega),
        encV_lt _ _ _ _ _ (by omega) (by omega)⟩

/-- Witness for C9 at a concrete heightmap: the fallback triangle `(0, 1, 2)`
of the all-zero 2x2 heightmap is in bounds. -/
theorem c9_face_indices_witness :
    2 ≤ hmZero22.rows ∧ 2 ≤ hmZero22.cols ∧
    ∀ t ∈ meshTris hmZero22 surfaceFloorDefault,
      t.1 < 2 * (hmZero22.rows * hmZero22.cols) ∧
        t.2.1 < 2 * (hmZero22.rows * hmZero22.cols) ∧
        t.2.2 < 2 * (hmZero22.rows * hmZero22.cols) :=
  ⟨by decide, by decide,
    c9_face_indices_bounded hmZero22 surfaceFloorDefault (by decide) (by decide)⟩

/-- Sum over a range vanishes when every term does. -/
theorem sum_map_range_zero (n : ℕ) (f : ℕ → ℕ) :
    (∀ i, i < n → f i = 0) → ((List.range n).map f).sum = 0 := by
  induction n with
  | zero => intro h; rfl
  | succ m ih =>
    intro h
    rw [List.range_succ, List.map_append, List.sum_append]
    rw [ih (fun i hi => h i (by omega))]
    simp [h m (by omega)]

/-- Sum over a range with a single nonvanishing index. -/
theorem sum_map_range_single (n : ℕ) (f : ℕ → ℕ) (j : ℕ) (hj : j < n)
    (h : ∀ i, i < n → i ≠ j → f i = 0) :
    ((List.range n).map f).sum = f j := by
  induction n with
  | zero => omega
  | succ m ih =>
    rw [List.range_succ, List.map_append, List.sum_append]
    by_cases hjm : j = m
    · subst hjm
      rw [sum_map_range_zero _ f (fun i hi => h i (by omega) (by omega))]
      simp
    · rw [ih (by omega) (fun i hi hij => h i (by omega) hij)]
      simp [h m (by omega) (fun hmj => hjm hmj.symm)]

/-- Sum over a range with exactly two nonvanishing indices. -/
theorem sum_map_range_pair (n : ℕ) (f : ℕ → ℕ) (j k : ℕ) (hjk : j < k) (hk : k < n)
    (h : ∀ i, i < n → i ≠ j → i ≠ k → f i = 0) :
    ((List.range n).map f).sum = f j + f k := by
  induction n with
  | zero => omega
  | succ m ih =>
    rw [List.range_succ, List.map_append, List.sum_append]
    by_cases hkm : k = m
    · subst hkm
      rw [sum_map_range_single _ f j (by omega) (fun i hi hij => h i (by omega) hij (by omega))]
      simp
    · rw [ih (by omega) (fun i hi hij hik => h i (by omega) hij hik)]
      simp [h m (by omega) (by omega) (fun hmk => hkm hmk.symm)]

/-- Counting over a conditional block. -/
theorem countP_ite {α : Type} (p : α → Bool) (c : Prop) [Decidable c] (l : List α) :
    List.countP p (if c then l else []) = if c then List.countP p l else 0 := by
  split_ifs <;> simp

/-- The emitted edge count decomposes into per-cell contributions. -/
theorem edgeCount_meshTrisS (R C : ℕ) (A : ℕ → ℕ → Bool) (u v : Vert) :
    edgeCount (meshTrisS R C A) u v =
      ((List.range (R - 1)).map fun y =>
        ((List.range (C - 1)).map fun x => cellContrib A R C u v y x).sum).sum := by
  unfold meshTrisS edgeCount cellContrib
  rw [List.countP_flatten, List.map_map]
  apply congrArg List.sum
  apply List.map_congr_left
  intro y hy
  simp only [Function.comp_apply]
  rw [List.countP_flatten, List.map_map]
  apply congrArg List.sum
  apply List.map_congr_left
  intro x hx
  simp only [Function.comp_apply]
  split_ifs with hA
  · rfl
  · exact List.countP_nil _

/-- A cell contributes nothing to an edge absent from its twelve possible
triangles. -/
theorem contrib_zero (A : ℕ → ℕ → Bool) (R C : ℕ) (u v : Vert) (y x : ℕ)
    (h : edgeCount (allTris y x) u v = 0) : cellContrib A R C u v y x = 0 := by
  unfold cellContrib
  split_ifs with hA
  · have hle := List.Sublist.countP_le (fun t => hasEdge t u v) (cellTris_sublist A R C y x)
    simp only [edgeCount] at h ⊢
    omega
  · rfl

/-- An edge absent from every cell has total count zero. -/
theorem total_eq_zero (R C : ℕ) (A : ℕ → ℕ → Bool) (u v : Vert)
    (h : ∀ y x, y < R - 1 → x < C - 1 → edgeCount (allTris y x) u v = 0) :
    edgeCount (meshTrisS R C A) u v = 0 := by
  rw [edgeCount_meshTrisS]
  exact sum_map_range_zero _ _ (fun y hy =>
    sum_map_range_zero _ _ (fun x hx => contrib_zero A R C u v y x (h y x hy hx)))

/-- An edge carried by a single candidate cell has that cell's contribution as
its total count. -/
theorem total_eq_single (R C : ℕ) (A : ℕ → ℕ → Bool) (u v : Vert) (r c : ℕ)
    (hr : r < R - 1) (hc : c < C - 1)
    (h : ∀ y x, y < R - 1 → x < C - 1 → ¬(y = r ∧ x = c) →
      edgeCount (allTris y x) u v = 0) :
    edgeCount (meshTrisS R C A) u v = cellContrib A R C u v r c := by
  rw [edgeCount_meshTrisS]
  rw [sum_map_range_single (R - 1)
    (fun y => ((List.range (C - 1)).map fun x => cellContrib A R C u v y x).sum) r hr
    (fun y hy hyr => sum_map_range_zero _ _ (fun x hx =>
      contrib_zero A R C u v y x (h y x hy hx (fun heq => hyr heq.1))))]
  exact sum_map_range_single (C - 1) _ c hc (fun x hx hxc =>
    contrib_zero A R C u v r x (h r x hr hx (fun heq => hxc heq.2)))

/-- An edge carried by two vertically adjacent candidate cells. -/
theorem total_eq_pair_rows (R C : ℕ) (A : ℕ → ℕ → Bool) (u v : Vert) (r1 r2 c : ℕ)
    (h12 : r1 < r2) (hr : r2 < R - 1) (hc : c < C - 1)
    (h : ∀ y x, y < R - 1 → x < C - 1 → ¬(y = r1 ∧ x = c) → ¬(y = r2 ∧ x = c) →
      edgeCount (allTris y x) u v = 0) :
    edgeCount (meshTrisS R C A) u v =
      cellContrib A R C u v r1 c + cellContrib A R C u v r2 c := by
  rw [edgeCount_meshTrisS]
  rw [sum_map_range_pair (R - 1)
    (fun y => ((List.range (C - 1)).map fun x => cellContrib A R C u v y x).sum) r1 r2 h12 hr
    (fun y hy hy1 hy2 => sum_map_range_zero _ _ (fun x hx =>
      contrib_zero A R C u v y x (h y x hy hx (fun heq => hy1 heq.1) (fun heq => hy2 heq.1))))]
  rw [sum_map_range_single (C - 1) _ c hc (fun x hx hxc =>
    contrib_zero A R C u v r1 x (h r1 x (by omega) hx (fun heq => hxc heq.2)
      (fun heq => absurd heq.1 (by omega))))]
  rw [sum_map_range_single (C - 1) _ c hc (fun x hx hxc =>
    contrib_zero A R C u v r2 x (h r2 x hr hx (fun heq => absurd heq.1 (by omega))
      (fun heq => hxc heq.2)))]

/-- An edge carried by two horizontally adjacent candidate cells. -/
theorem total_eq_pair_cols (R C : ℕ) (A : ℕ → ℕ → Bool) (u v : Vert) (r c1 c2 : ℕ)
    (h12 : c1 < c2) (hr : r < R - 1) (hc : c2 < C - 1)
    (h : ∀ y x, y < R - 1 → x < C - 1 → ¬(y = r ∧ x = c1) → ¬(y = r ∧ x = c2) →
      edgeCount (allTris y x) u v = 0) :
    edgeCount (meshTrisS R C A) u v =
      cellContrib A R C u v r c1 + cellContrib A R C u v r c2 := by
  rw [edgeCount_meshTrisS]
  rw [sum_map_range_single (R - 1)
    (fun y => ((List.range (C - 1)).map fun x => cellContrib A R C u v y x).sum) r hr
    (fun y hy hyr => sum_map_range_zero _ _ (fun x hx =>
      contrib_zero A R C u v y x (h y x hy hx (fun heq => hyr heq.1) (fun heq => hyr heq.1))))]
  exact sum_map_range_pair (C - 1) _ c1 c2 h12 hc (fun x hx hx1 hx2 =>
    contrib_zero A R C u v r x (h r x hr hx (fun heq => hx1 heq.2) (fun heq => hx2 heq.2)))

/-- An edge carried by a square of four candidate cells. -/
theorem total_eq_quad (R C : ℕ) (A : ℕ → ℕ → Bool) (u v : Vert) (r1 r2 c1 c2 : ℕ)
    (hr12 : r1 < r2) (hr : r2 < R - 1) (hc12 : c1 < c2) (hc : c2 < C - 1)
    (h : ∀ y x, y < R - 1 → x < C - 1 → ¬(y = r1 ∧ x = c1) → ¬(y = r1 ∧ x = c2) →
      ¬(y = r2 ∧ x = c1) → ¬(y = r2 ∧ x = c2) → edgeCount (allTris y x) u v = 0) :
    edgeCount (meshTrisS R C A) u v =
      (cellContrib A R C u v r1 c1 + cellContrib A R C u v r1 c2) +
        (cellContrib A R C u v r2 c1 + cellContrib A R C u v r2 c2) := by
  rw [edgeCount_meshTrisS]
  rw [sum_map_range_pair (R - 1)
    (fun y => ((List.range (C - 1)).map fun x => cellContrib A R C u v y x).sum) r1 r2 hr12 hr
    (fun y hy hy1 hy2 => sum_map_range_zero _ _ (fun x hx =>
      contrib_zero A R C u v y x (h y x hy hx (fun heq => hy1 heq.1) (fun heq => hy1 heq.1)
        (fun heq => hy2 heq.1) (fun heq => hy2 heq.1))))]
  rw [sum_map_range_pair (C - 1) _ c1 c2 hc12 hc (fun x hx hx1 hx2 =>
    contrib_zero A R C u v r1 x (h r1 x (by omega) hx (fun heq => hx1 heq.2)
      (fun heq => hx2 heq.2) (fun heq => absurd heq.1 (by omega))
      (fun heq => absurd heq.1 (by omega))))]
  rw [sum_map_range_pair (C - 1) _ c1 c2 hc12 hc (fun x hx hx1 hx2 =>
    contrib_zero A R C u v r2 x (h r2 x hr hx (fun heq => absurd heq.1 (by omega))
      (fun heq => absurd heq.1 (by omega)) (fun heq => hx1 heq.2)
      (fun heq => hx2 heq.2)))]

/-- An edge is unordered: membership in a triangle is symmetric. -/
theorem hasEdge_comm {α : Type} [DecidableEq α] (t : α × α × α) (u v : α) :
    hasEdge t u v = hasEdge t v u := by
  apply Bool.eq_iff_iff.mpr
  simp only [hasEdge, Bool.or_eq_true, Bool.and_eq_true, decide_eq_true_eq]
  tauto

/-- Edge counts are symmetric in the edge's endpoints. -/
theorem edgeCount_comm {α : Type} [DecidableEq α] (l : List (α × α × α)) (u v : α) :
    edgeCount l u v = edgeCount l v u := by
  unfold edgeCount
  exact List.countP_congr (fun t _ => by rw [hasEdge_comm])

/-- The top horizontal edge at `(r, c)` only occurs in cells `(r, c)` and
`(r-1, c)`. -/
theorem vanish_TH (r c y x : ℕ) (h1 : ¬(y = r ∧ x = c)) (h2 : ¬(y + 1 = r ∧ x = c)) :
    edgeCount (allTris y x) (Tv r c) (Tv r (c + 1)) = 0 := by
  rw [edgeCount, List.countP_eq_zero]
  intro t ht
  simp only [allTris, List.mem_append, List.mem_cons, List.not_mem_nil, or_false] at ht
  rcases ht with ((((rfl | rfl | rfl | rfl) | rfl | rfl) | rfl | rfl) | rfl | rfl) | rfl | rfl <;>
    simp only [hasEdge, Tv, Bv, Prod.mk.injEq, Bool.or_eq_true, Bool.and_eq_true,
      decide_eq_true_eq, Bool.false_eq_true, Bool.true_eq_false, false_and, and_false,
      true_and, and_true, or_false, false_or, not_false_eq_true, or_self] <;>
    omega

/-- The top vertical edge at `(r, c)` only occurs in cells `(r, c)` and
`(r, c-1)`. -/
theorem vanish_TV (r c y x : ℕ) (h1 : ¬(y = r ∧ x = c)) (h2 : ¬(y = r ∧ x + 1 = c)) :
    edgeCount (allTris y x) (Tv r c) (Tv (r + 1) c) = 0 := by
  rw [edgeCount, List.countP_eq_zero]
  intro t ht
  simp only [allTris, List.mem_append, List.mem_cons, List.not_mem_nil, or_false] at ht
  rcases ht with ((((rfl | rfl | rfl | rfl) | rfl | rfl) | rfl | rfl) | rfl | rfl) | rfl | rfl <;>
    simp only [hasEdge, Tv, Bv, Prod.mk.injEq, Bool.or_eq_true, Bool.and_eq_true,
      decide_eq_true_eq, Bool.false_eq_true, Bool.true_eq_false, false_and, and_false,
      true_and, and_true, or_false, false_or, not_false_eq_true, or_self] <;>
    omega

/-- The top diagonal edge of cell `(r, c)` only occurs in that cell. -/
theorem vanish_TD (r c y x : ℕ) (h1 : ¬(y = r ∧ x = c)) :
    edgeCount (allTris y x) (Tv (r + 1) c) (Tv r (c + 1)) = 0 := by
  rw [edgeCount, List.countP_eq_zero]
  intro t ht
  simp only [allTris, List.mem_append, List.mem_cons, List.not_mem_nil, or_false] at ht
  rcases ht with ((((rfl | rfl | rfl | rfl) | rfl | rfl) | rfl | rfl) | rfl | rfl) | rfl | rfl <;>
    simp only [hasEdge, Tv, Bv, Prod.mk.injEq, Bool.or_eq_true, Bool.and_eq_true,
      decide_eq_true_eq, Bool.false_eq_true, Bool.true_eq_false, false_and, and_false,
      true_and, and_true, or_false, false_or, not_false_eq_true, or_self] <;>
    omega

/-- The bottom horizontal edge at `(r, c)` only occurs in cells `(r, c)` and
`(r-1, c)`. -/
theorem vanish_BH (r c y x : ℕ) (h1 : ¬(y = r ∧ x = c)) (h2 : ¬(y + 1 = r ∧ x = c)) :
    edgeCount (allTris y x) (Bv r c) (Bv r (c + 1)) = 0 := by
  rw [edgeCount, List.countP_eq_zero]
  intro t ht
  simp only [allTris, List.mem_append, List.mem_cons, List.not_mem_nil, or_false] at ht
  rcases ht with ((((rfl | rfl | rfl | rfl) | rfl | rfl) | rfl | rfl) | rfl | rfl) | rfl | rfl <;>
    simp only [hasEdge, Tv, Bv, Prod.mk.injEq, Bool.or_eq_true, Bool.and_eq_true,
      decide_eq_true_eq, Bool.false_eq_true, Bool.true_eq_false, false_and, and_false,
      true_and, and_true, or_false, false_or, not_false_eq_true, or_self] <;>
    omega

/-- The bottom vertical edge at `(r, c)` only occurs in cells `(r, c)` and
`(r, c-1)`. -/
theorem vanish_BV (r c y x : ℕ) (h1 : ¬(y = r ∧ x = c)) (h2 : ¬(y = r ∧ x + 1 = c)) :
    edgeCount (allTris y x) (Bv r c) (Bv (r + 1) c) = 0 := by
  rw [edgeCount, List.countP_eq_zero]
  intro t ht
  simp only [allTris, List.mem_append, List.mem_cons, List.not_mem_nil, or_false] at ht
  rcases ht with ((((rfl | rfl | rfl | rfl) | rfl | rfl) | rfl | rfl) | rfl | rfl) | rfl | rfl <;>
    simp only [hasEdge, Tv, Bv, Prod.mk.injEq, Bool.or_eq_true, Bool.and_eq_true,
      decide_eq_true_eq, Bool.false_eq_true, Bool.true_eq_false, false_and, and_false,
      true_and, and_true, or_false, false_or, not_false_eq_true, or_self] <;>
    omega

/-- The bottom diagonal edge of cell `(r, c)` only occurs in that cell. -/
theorem vanish_BD (r c y x : ℕ) (h1 : ¬(y = r ∧ x = c)) :
    edgeCount (allTris y x) (Bv r (c + 1)) (Bv (r + 1) c) = 0 := by
  rw [edgeCount, List.countP_eq_zero]
  intro t ht
  simp only [allTris, List.mem_append, List.mem_cons, List.not_mem_nil, or_false] at ht
  rcases ht with ((((rfl | rfl | rfl | rfl) | rfl | rfl) | rfl | rfl) | rfl | rfl) | rfl | rfl <;>
    simp only [hasEdge, Tv, Bv, Prod.mk.injEq, Bool.or_eq_true, Bool.and_eq_true,
      decide_eq_true_eq, Bool.false_eq_true, Bool.true_eq_false, false_and, and_false,
      true_and, and_true, or_false, false_or, not_false_eq_true, or_self] <;>
    omega

/-- The pillar edge at corner `(r, c)` only occurs in the four cells meeting
that corner. -/
theorem vanish_P (r c y x : ℕ) (h1 : ¬(y = r ∧ x = c)) (h2 : ¬(y = r ∧ x + 1 = c))
    (h3 : ¬(y + 1 = r ∧ x = c)) (h4 : ¬(y + 1 = r ∧ x + 1 = c)) :
    edgeCount (allTris y x) (Tv r c) (Bv r c) = 0 := by
  rw [edgeCount, List.countP_eq_zero]
  intro t ht
  simp only [allTris, List.mem_append, List.mem_cons, List.not_mem_nil, or_false] at ht
  rcases ht with ((((rfl | rfl | rfl | rfl) | rfl | rfl) | rfl | rfl) | rfl | rfl) | rfl | rfl <;>
    simp only [hasEdge, Tv, Bv, Prod.mk.injEq, Bool.or_eq_true, Bool.and_eq_true,
      decide_eq_true_eq, Bool.false_eq_true, Bool.true_eq_false, false_and, and_false,
      true_and, and_true, or_false, false_or, not_false_eq_true, or_self] <;>
    omega

/-- The horizontal-wall diagonal at row `r`, cell column `c`, only occurs in
cells `(r, c)` and `(r-1, c)`. -/
theorem vanish_ND (r c y x : ℕ) (h1 : ¬(y = r ∧ x = c)) (h2 : ¬(y + 1 = r ∧ x = c)) :
    edgeCount (allTris y x) (Tv r (c + 1)) (Bv r c) = 0 := by
  rw [edgeCount, List.countP_eq_zero]
  intro t ht
  simp only [allTris, List.mem_append, List.mem_cons, List.not_mem_nil, or_false] at ht
  rcases ht with ((((rfl | rfl | rfl | rfl) | rfl | rfl) | rfl | rfl) | rfl | rfl) | rfl | rfl <;>
    simp only [hasEdge, Tv, Bv, Prod.mk.injEq, Bool.or_eq_true, Bool.and_eq_true,
      decide_eq_true_eq, Bool.false_eq_true, Bool.true_eq_false, false_and, and_false,
      true_and, and_true, or_false, false_or, not_false_eq_true, or_self] <;>
    omega

/-- The vertical-wall diagonal at column `c`, cell row `r`, only occurs in
cells `(r, c)` and `(r, c-1)`. -/
theorem vanish_WD (r c y x : ℕ) (h1 : ¬(y = r ∧ x = c)) (h2 : ¬(y = r ∧ x + 1 = c)) :
    edgeCount (allTris y x) (Tv (r + 1) c) (Bv r c) = 0 := by
  rw [edgeCount, List.countP_eq_zero]
  intro t ht
  simp only [allTris, List.mem_append, List.mem_cons, List.not_mem_nil, or_false] at ht
  rcases ht with ((((rfl | rfl | rfl | rfl) | rfl | rfl) | rfl | rfl) | rfl | rfl) | rfl | rfl <;>
    simp only [hasEdge, Tv, Bv, Prod.mk.injEq, Bool.or_eq_true, Bool.and_eq_true,
      decide_eq_true_eq, Bool.false_eq_true, Bool.true_eq_false, false_and, and_false,
      true_and, and_true, or_false, false_or, not_false_eq_true, or_self] <;>
    omega

/-- Two top vertices that are not grid-adjacent in any of the three emitted
directions never share a triangle edge. -/
theorem vanish_TT_gen (y1 x1 y2 x2 y x : ℕ)
    (h1 : ¬(y1 = y2 ∧ x2 = x1 + 1)) (h2 : ¬(y1 = y2 ∧ x1 = x2 + 1))
    (h3 : ¬(x1 = x2 ∧ y2 = y1 + 1)) (h4 : ¬(x1 = x2 ∧ y1 = y2 + 1))
    (h5 : ¬(y1 = y2 + 1 ∧ x2 = x1 + 1)) (h6 : ¬(y2 = y1 + 1 ∧ x1 = x2 + 1)) :
    edgeCount (allTris y x) (Tv y1 x1) (Tv y2 x2) = 0 := by
  rw [edgeCount, List.countP_eq_zero]
  intro t ht
  simp only [allTris, List.mem_append, List.mem_cons, List.not_mem_nil, or_false] at ht
  rcases ht with ((((rfl | rfl | rfl | rfl) | rfl | rfl) | rfl | rfl) | rfl | rfl) | rfl | rfl <;>
    simp only [hasEdge, Tv, Bv, Prod.mk.injEq, Bool.or_eq_true, Bool.and_eq_true,
      decide_eq_true_eq, Bool.false_eq_true, Bool.true_eq_false, false_and, and_false,
      true_and, and_true, or_false, false_or, not_false_eq_true, or_self] <;>
    omega

/-- Two bottom vertices that are not grid-adjacent in any of the three emitted
directions never share a triangle edge. -/
theorem vanish_BB_gen (y1 x1 y2 x2 y x : ℕ)
    (h1 : ¬(y1 = y2 ∧ x2 = x1 + 1)) (h2 : ¬(y1 = y2 ∧ x1 = x2 + 1))
    (h3 : ¬(x1 = x2 ∧ y2 = y1 + 1)) (h4 : ¬(x1 = x2 ∧ y1 = y2 + 1))
    (h5 : ¬(y1 = y2 + 1 ∧ x2 = x1 + 1)) (h6 : ¬(y2 = y1 + 1 ∧ x1 = x2 + 1)) :
    edgeCount (allTris y x) (Bv y1 x1) (Bv y2 x2) = 0 := by
  rw [edgeCount, List.countP_eq_zero]
  intro t ht
  simp only [allTris, List.mem_append, List.mem_cons, List.not_mem_nil, or_false] at ht
  rcases ht with ((((rfl | rfl | rfl | rfl) | rfl | rfl) | rfl | rfl) | rfl | rfl) | rfl | rfl <;>
    simp only [hasEdge, Tv, Bv, Prod.mk.injEq, Bool.or_eq_true, Bool.and_eq_true,
      decide_eq_true_eq, Bool.false_eq_true, Bool.true_eq_false, false_and, and_false,
      true_and, and_true, or_false, false_or, not_false_eq_true, or_self] <;>
    omega

/-- A top and a bottom vertex share a triangle edge only at a pillar, a
horizontal-wall diagonal or a vertical-wall diagonal. -/
theorem vanish_TB_gen (y1 x1 y2 x2 y x : ℕ)
    (h1 : ¬(y1 = y2 ∧ x1 = x2)) (h2 : ¬(y1 = y2 ∧ x1 = x2 + 1))
    (h3 : ¬(x1 = x2 ∧ y1 = y2 + 1)) :
    edgeCount (allTris y x) (Tv y1 x1) (Bv y2 x2) = 0 := by
  rw [edgeCount, List.countP_eq_zero]
  intro t ht
  simp only [allTris, List.mem_append, List.mem_cons, List.not_mem_nil, or_false] at ht
  rcases ht with ((((rfl | rfl | rfl | rfl) | rfl | rfl) | rfl | rfl) | rfl | rfl) | rfl | rfl <;>
    simp only [hasEdge, Tv, Bv, Prod.mk.injEq, Bool.or_eq_true, Bool.and_eq_true,
      decide_eq_true_eq, Bool.false_eq_true, Bool.true_eq_false, false_and, and_false,
      true_and, and_true, or_false, false_or, not_false_eq_true, or_self] <;>
    omega

/-- Per-cell counts of each edge family inside `cellTris`, written with the
cell's own wall conditions. -/
theorem cnt_TH_own (A : ℕ → ℕ → Bool) (R C y x : ℕ) :
    edgeCount (cellTris A R C y x) (Tv y x) (Tv y (x + 1)) =
      1 + (if y = 0 ∨ A (y - 1) x = false then 1 else 0) := by
  simp [cellTris, edgeCount, countP_ite, List.countP_cons, List.countP_append,
    hasEdge, Tv, Bv, Prod.mk.injEq] <;> (try split_ifs) <;> omega

theorem cnt_TH_south (A : ℕ → ℕ → Bool) (R C y x : ℕ) :
    edgeCount (cellTris A R C y x) (Tv (y + 1) x) (Tv (y + 1) (x + 1)) =
      1 + (if y = R - 2 ∨ A (y + 1) x = false then 1 else 0) := by
  simp [cellTris, edgeCount, countP_ite, List.countP_cons, List.countP_append,
    hasEdge, Tv, Bv, Prod.mk.injEq] <;> (try split_ifs) <;> omega

theorem cnt_TV_own (A : ℕ → ℕ → Bool) (R C y x : ℕ) :
    edgeCount (cellTris A R C y x) (Tv y x) (Tv (y + 1) x) =
      1 + (if x = 0 ∨ A y (x - 1) = false then 1 else 0) := by
  simp [cellTris, edgeCount, countP_ite, List.countP_cons, List.countP_append,
    hasEdge, Tv, Bv, Prod.mk.injEq] <;> (try split_ifs) <;> omega

theorem cnt_TV_east (A : ℕ → ℕ → Bool) (R C y x : ℕ) :
    edgeCount (cellTris A R C y x) (Tv y (x + 1)) (Tv (y + 1) (x + 1)) =
      1 + (if x = C - 2 ∨ A y (x + 1) = false then 1 else 0) := by
  simp [cellTris, edgeCount, countP_ite, List.countP_cons, List.countP_append,
    hasEdge, Tv, Bv, Prod.mk.injEq] <;> (try split_ifs) <;> omega

theorem cnt_TD (A : ℕ → ℕ → Bool) (R C y x : ℕ) :
    edgeCount (cellTris A R C y x) (Tv (y + 1) x) (Tv y (x + 1)) =
      2 := by
  simp [cellTris, edgeCount, countP_ite, List.countP_cons, List.countP_append,
    hasEdge, Tv, Bv, Prod.mk.injEq] <;> (try split_ifs) <;> omega

theorem cnt_BH_own (A : ℕ → ℕ → Bool) (R C y x : ℕ) :
    edgeCount (cellTris A R C y x) (Bv y x) (Bv y (x + 1)) =
      1 + (if y = 0 ∨ A (y - 1) x = false then 1 else 0) := by
  simp [cellTris, edgeCount, countP_ite, List.countP_cons, List.countP_append,
    hasEdge, Tv, Bv, Prod.mk.injEq] <;> (try split_ifs) <;> omega

theorem cnt_BH_south (A : ℕ → ℕ → Bool) (R C y x : ℕ) :
    edgeCount (cellTris A R C y x) (Bv (y + 1) x) (Bv (y + 1) (x + 1)) =
      1 + (if y = R - 2 ∨ A (y + 1) x = false then 1 else 0) := by
  simp [cellTris, edgeCount, countP_ite, List.countP_cons, List.countP_append,
    hasEdge, Tv, Bv, Prod.mk.injEq] <;> (try split_ifs) <;> omega

theorem cnt_BV_own (A : ℕ → ℕ → Bool) (R C y x : ℕ) :
    edgeCount (cellTris A R C y x) (Bv y x) (Bv (y + 1) x) =
      1 + (if x = 0 ∨ A y (x - 1) = false then 1 else 0) := by
  simp [cellTris, edgeCount, countP_ite, List.countP_cons, List.countP_append,
    hasEdge, Tv, Bv, Prod.mk.injEq] <;> (try split_ifs) <;> omega

theorem cnt_BV_east (A : ℕ → ℕ → Bool) (R C y x : ℕ) :
    edgeCount (cellTris A R C y x) (Bv y (x + 1)) (Bv (y + 1) (x + 1)) =
      1 + (if x = C - 2 ∨ A y (x + 1) = false then 1 else 0) := by
  simp [cellTris, edgeCount, countP_ite, List.countP_cons, List.countP_append,
    hasEdge, Tv, Bv, Prod.mk.injEq] <;> (try split_ifs) <;> omega

theorem cnt_BD (A : ℕ → ℕ → Bool) (R C y x : ℕ) :
    edgeCount (cellTris A R C y x) (Bv y (x + 1)) (Bv (y + 1) x) =
      2 := by
  simp [cellTris, edgeCount, countP_ite, List.countP_cons, List.countP_append,
    hasEdge, Tv, Bv, Prod.mk.injEq] <;> (try split_ifs) <;> omega

theorem cnt_ND_own (A : ℕ → ℕ → Bool) (R C y x : ℕ) :
    edgeCount (cellTris A R C y x) (Tv y (x + 1)) (Bv y x) =
      (if y = 0 ∨ A (y - 1) x = false then 2 else 0) := by
  simp [cellTris, edgeCount, countP_ite, List.countP_cons, List.countP_append,
    hasEdge, Tv, Bv, Prod.mk.injEq] <;> (try split_ifs) <;> omega

theorem cnt_ND_south (A : ℕ → ℕ → Bool) (R C y x : ℕ) :
    edgeCount (cellTris A R C y x) (Tv (y + 1) (x + 1)) (Bv (y + 1) x) =
      (if y = R - 2 ∨ A (y + 1) x = false then 2 else 0) := by
  simp [cellTris, edgeCount, countP_ite, List.countP_cons, List.countP_append,
    hasEdge, Tv, Bv, Prod.mk.injEq] <;> (try split_ifs) <;> omega

theorem cnt_WD_own (A : ℕ → ℕ → Bool) (R C y x : ℕ) :
    edgeCount (cellTris A R C y x) (Tv (y + 1) x) (Bv y x) =
      (if x = 0 ∨ A y (x - 1) = false then 2 else 0) := by
  simp [cellTris, edgeCount, countP_ite, List.countP_cons, List.countP_append,
    hasEdge, Tv, Bv, Prod.mk.injEq] <;> (try split_ifs) <;> omega

theorem cnt_WD_east (A : ℕ → ℕ → Bool) (R C y x : ℕ) :
    edgeCount (cellTris A R C y x) (Tv (y + 1) (x + 1)) (Bv y (x + 1)) =
      (if x = C - 2 ∨ A y (x + 1) = false then 2 else 0) := by
  simp [cellTris, edgeCount, countP_ite, List.countP_cons, List.countP_append,
    hasEdge, Tv, Bv, Prod.mk.injEq] <;> (try split_ifs) <;> omega

theorem cnt_P_own (A : ℕ → ℕ → Bool) (R C y x : ℕ) :
    edgeCount (cellTris A R C y x) (Tv y x) (Bv y x) =
      (if y = 0 ∨ A (y - 1) x = false then 1 else 0) + (if x = 0 ∨ A y (x - 1) = false then 1 else 0) := by
  simp [cellTris, edgeCount, countP_ite, List.countP_cons, List.countP_append,
    hasEdge, Tv, Bv, Prod.mk.injEq] <;> (try split_ifs) <;> omega

theorem cnt_P_ne (A : ℕ → ℕ → Bool) (R C y x : ℕ) :
    edgeCount (cellTris A R C y x) (Tv y (x + 1)) (Bv y (x + 1)) =
      (if y = 0 ∨ A (y - 1) x = false then 1 else 0) + (if x = C - 2 ∨ A y (x + 1) = false then 1 else 0) := by
  simp [cellTris, edgeCount, countP_ite, List.countP_cons, List.countP_append,
    hasEdge, Tv, Bv, Prod.mk.injEq] <;> (try split_ifs) <;> omega

theorem cnt_P_sw (A : ℕ → ℕ → Bool) (R C y x : ℕ) :
    edgeCount (cellTris A R C y x) (Tv (y + 1) x) (Bv (y + 1) x) =
      (if y = R - 2 ∨ A (y + 1) x = false then 1 else 0) + (if x = 0 ∨ A y (x - 1) = false then 1 else 0) := by
  simp [cellTris, edgeCount, countP_ite, List.countP_cons, List.countP_append,
    hasEdge, Tv, Bv, Prod.mk.injEq] <;> (try split_ifs) <;> omega

theorem cnt_P_se (A : ℕ → ℕ → Bool) (R C y x : ℕ) :
    edgeCount (cellTris A R C y x) (Tv (y + 1) (x + 1)) (Bv (y + 1) (x + 1)) =
      (if y = R - 2 ∨ A (y + 1) x = false then 1 else 0) + (if x = C - 2 ∨ A y (x + 1) = false then 1 else 0) := by
  simp [cellTris, edgeCount, countP_ite, List.countP_cons, List.countP_append,
    hasEdge, Tv, Bv, Prod.mk.injEq] <;> (try split_ifs) <;> omega


/-- The total count of a top diagonal edge is 0 or 2. -/
theorem count_TD (R C : ℕ) (A : ℕ → ℕ → Bool) (r c : ℕ) :
    edgeCount (meshTrisS R C A) (Tv (r + 1) c) (Tv r (c + 1)) = 0 ∨
      edgeCount (meshTrisS R C A) (Tv (r + 1) c) (Tv r (c + 1)) = 2 := by
  by_cases hr : r < R - 1
  · by_cases hc : c < C - 1
    · rw [total_eq_single R C A _ _ r c hr hc
        (fun y x hy hx hne => vanish_TD r c y x hne)]
      unfold cellContrib
      by_cases hA : A r c = true
      · rw [if_pos hA, cnt_TD]
        right; rfl
      · rw [if_neg hA]; left; rfl
    · left
      exact total_eq_zero R C A _ _ (fun y x hy hx => vanish_TD r c y x (by omega))
  · left
    exact total_eq_zero R C A _ _ (fun y x hy hx => vanish_TD r c y x (by omega))

/-- The total count of a bottom diagonal edge is 0 or 2. -/
theorem count_BD (R C : ℕ) (A : ℕ → ℕ → Bool) (r c : ℕ) :
    edgeCount (meshTrisS R C A) (Bv r (c + 1)) (Bv (r + 1) c) = 0 ∨
      edgeCount (meshTrisS R C A) (Bv r (c + 1)) (Bv (r + 1) c) = 2 := by
  by_cases hr : r < R - 1
  · by_cases hc : c < C - 1
    · rw [total_eq_single R C A _ _ r c hr hc
        (fun y x hy hx hne => vanish_BD r c y x hne)]
      unfold cellContrib
      by_cases hA : A r c = true
      · rw [if_pos hA, cnt_BD]
        right; rfl
      · rw [if_neg hA]; left; rfl
    · left
      exact total_eq_zero R C A _ _ (fun y x hy hx => vanish_BD r c y x (by omega))
  · left
    exact total_eq_zero R C A _ _ (fun y x hy hx => vanish_BD r c y x (by omega))

/-- The total count of a top horizontal edge is 0 or 2. -/
theorem count_TH (R C : ℕ) (A : ℕ → ℕ → Bool) (r c : ℕ) :
    edgeCount (meshTrisS R C A) (Tv r c) (Tv r (c + 1)) = 0 ∨
      edgeCount (meshTrisS R C A) (Tv r c) (Tv r (c + 1)) = 2 := by
  by_cases hc : c < C - 1
  · rcases r with _ | r'
    · by_cases hr : 0 < R - 1
      · rw [total_eq_single R C A _ _ 0 c hr hc
          (fun y x hy hx hne => vanish_TH 0 c y x (by omega) (by omega))]
        unfold cellContrib
        by_cases hA : A 0 c = true
        · rw [if_pos hA, cnt_TH_own, if_pos (Or.inl rfl)]
          right; rfl
        · rw [if_neg hA]; left; rfl
      · left
        exact total_eq_zero R C A _ _ (fun y x hy hx => vanish_TH 0 c y x (by omega) (by omega))
    · by_cases hr2 : r' + 1 < R - 1
      · rw [total_eq_pair_rows R C A _ _ r' (r' + 1) c (by omega) hr2 hc
          (fun y x hy hx h1 h2 => vanish_TH (r' + 1) c y x (by omega) (by omega))]
        unfold cellContrib
        by_cases hA1 : A r' c = true <;> by_cases hA2 : A (r' + 1) c = true
        · rw [if_pos hA1, if_pos hA2, cnt_TH_south, cnt_TH_own]
          simp only [Nat.add_sub_cancel]
          right
          rw [if_neg (by push_neg; exact ⟨by omega, by simp [hA2]⟩)]
          rw [if_neg (by push_neg; exact ⟨by omega, by simp [hA1]⟩)]
        · have hA2f : A (r' + 1) c = false := by revert hA2; cases A (r' + 1) c <;> simp
          rw [if_pos hA1, if_neg hA2, cnt_TH_south, if_pos (Or.inr hA2f)]
          right; rfl
        · have hA1f : A r' c = false := by revert hA1; cases A r' c <;> simp
          rw [if_neg hA1, if_pos hA2, cnt_TH_own]
          simp only [Nat.add_sub_cancel]
          rw [if_pos (Or.inr hA1f)]
          right; rfl
        · rw [if_neg hA1, if_neg hA2]; left; rfl
      · by_cases hr1 : r' < R - 1
        · rw [total_eq_single R C A _ _ r' c hr1 hc
            (fun y x hy hx hne => vanish_TH (r' + 1) c y x (by omega) (by omega))]
          unfold cellContrib
          by_cases hA1 : A r' c = true
          · rw [if_pos hA1, cnt_TH_south, if_pos (Or.inl (by omega))]
            right; rfl
          · rw [if_neg hA1]; left; rfl
        · left
          exact total_eq_zero R C A _ _
            (fun y x hy hx => vanish_TH (r' + 1) c y x (by omega) (by omega))
  · left
    exact total_eq_zero R C A _ _ (fun y x hy hx => vanish_TH r c y x (by omega) (by omega))

/-- The total count of a bottom horizontal edge is 0 or 2. -/
theorem count_BH (R C : ℕ) (A : ℕ → ℕ → Bool) (r c : ℕ) :
    edgeCount (meshTrisS R C A) (Bv r c) (Bv r (c + 1)) = 0 ∨
      edgeCount (meshTrisS R C A) (Bv r c) (Bv r (c + 1)) = 2 := by
  by_cases hc : c < C - 1
  · rcases r with _ | r'
    · by_cases hr : 0 < R - 1
      · rw [total_eq_single R C A _ _ 0 c hr hc
          (fun y x hy hx hne => vanish_BH 0 c y x (by omega) (by omega))]
        unfold cellContrib
        by_cases hA : A 0 c = true
        · rw [if_pos hA, cnt_BH_own, if_pos (Or.inl rfl)]
          right; rfl
        · rw [if_neg hA]; left; rfl
      · left
        exact total_eq_zero R C A _ _ (fun y x hy hx => vanish_BH 0 c y x (by omega) (by omega))
    · by_cases hr2 : r' + 1 < R - 1
      · rw [total_eq_pair_rows R C A _ _ r' (r' + 1) c (by omega) hr2 hc
          (fun y x hy hx h1 h2 => vanish_BH (r' + 1) c y x (by omega) (by omega))]
        unfold cellContrib
        by_cases hA1 : A r' c = true <;> by_cases hA2 : A (r' + 1) c = true
        · rw [if_pos hA1, if_pos hA2, cnt_BH_south, cnt_BH_own]
          simp only [Nat.add_sub_cancel]
          right
          rw [if_neg (by push_neg; exact ⟨by omega, by simp [hA2]⟩)]
          rw [if_neg (by push_neg; exact ⟨by omega, by simp [hA1]⟩)]
        · have hA2f : A (r' + 1) c = false := by revert hA2; cases A (r' + 1) c <;> simp
          rw [if_pos hA1, if_neg hA2, cnt_BH_south, if_pos (Or.inr hA2f)]
          right; rfl
        · have hA1f : A r' c = false := by revert hA1; cases A r' c <;> simp
          rw [if_neg hA1, if_pos hA2, cnt_BH_own]
          simp only [Nat.add_sub_cancel]
          rw [if_pos (Or.inr hA1f)]
          right; rfl
        · rw [if_neg hA1, if_neg hA2]; left; rfl
      · by_cases hr1 : r' < R - 1
        · rw [total_eq_single R C A _ _ r' c hr1 hc
            (fun y x hy hx hne => vanish_BH (r' + 1) c y x (by omega) (by omega))]
          unfold cellContrib
          by_cases hA1 : A r' c = true
          · rw [if_pos hA1, cnt_BH_south, if_pos (Or.inl (by omega))]
            right; rfl
          · rw [if_neg hA1]; left; rfl
        · left
          exact total_eq_zero R C A _ _
            (fun y x hy hx => vanish_BH (r' + 1) c y x (by omega) (by omega))
  · left
    exact total_eq_zero R C A _ _ (fun y x hy hx => vanish_BH r c y x (by omega) (by omega))

/-- The total count of a top vertical edge is 0 or 2. -/
theorem count_TV (R C : ℕ) (A : ℕ → ℕ → Bool) (r c : ℕ) :
    edgeCount (meshTrisS R C A) (Tv r c) (Tv (r + 1) c) = 0 ∨
      edgeCount (meshTrisS R C A) (Tv r c) (Tv (r + 1) c) = 2 := by
  by_cases hr : r < R - 1
  · rcases c with _ | c'
    · by_cases hc : 0 < C - 1
      · rw [total_eq_single R C A _ _ r 0 hr hc
          (fun y x hy hx hne => vanish_TV r 0 y x (by omega) (by omega))]
        unfold cellContrib
        by_cases hA : A r 0 = true
        · rw [if_pos hA, cnt_TV_own, if_pos (Or.inl rfl)]
          right; rfl
        · rw [if_neg hA]; left; rfl
      · left
        exact total_eq_zero R C A _ _ (fun y x hy hx => vanish_TV r 0 y x (by omega) (by omega))
    · by_cases hc2 : c' + 1 < C - 1
      · rw [total_eq_pair_cols R C A _ _ r c' (c' + 1) (by omega) hr hc2
          (fun y x hy hx h1 h2 => vanish_TV r (c' + 1) y x (by omega) (by omega))]
        unfold cellContrib
        by_cases hA1 : A r c' = true <;> by_cases hA2 : A r (c' + 1) = true
        · rw [if_pos hA1, if_pos hA2, cnt_TV_east, cnt_TV_own]
          simp only [Nat.add_sub_cancel]
          right
          rw [if_neg (by push_neg; exact ⟨by omega, by simp [hA2]⟩)]
          rw [if_neg (by push_neg; exact ⟨by omega, by simp [hA1]⟩)]
        · have hA2f : A r (c' + 1) = false := by revert hA2; cases A r (c' + 1) <;> simp
          rw [if_pos hA1, if_neg hA2, cnt_TV_east, if_pos (Or.inr hA2f)]
          right; rfl
        · have hA1f : A r c' = false := by revert hA1; cases A r c' <;> simp
          rw [if_neg hA1, if_pos hA2, cnt_TV_own]
          simp only [Nat.add_sub_cancel]
          rw [if_pos (Or.inr hA1f)]
          right; rfl
        · rw [if_neg hA1, if_neg hA2]; left; rfl
      · by_cases hc1 : c' < C - 1
        · rw [total_eq_single R C A _ _ r c' hr hc1
            (fun y x hy hx hne => vanish_TV r (c' + 1) y x (by omega) (by omega))]
          unfold cellContrib
          by_cases hA1 : A r c' = true
          · rw [if_pos hA1, cnt_TV_east, if_pos (Or.inl (by omega))]
            right; rfl
          · rw [if_neg hA1]; left; rfl
        · left
          exact total_eq_zero R C A _ _
            (fun y x hy hx => vanish_TV r (c' + 1) y x (by omega) (by omega))
  · left
    exact total_eq_zero R C A _ _ (fun y x hy hx => vanish_TV r c y x (by omega) (by omega))

/-- The total count of a bottom vertical edge is 0 or 2. -/
theorem count_BV (R C : ℕ) (A : ℕ → ℕ → Bool) (r c : ℕ) :
    edgeCount (meshTrisS R C A) (Bv r c) (Bv (r + 1) c) = 0 ∨
      edgeCount (meshTrisS R C A) (Bv r c) (Bv (r + 1) c) = 2 := by
  by_cases hr : r < R - 1
  · rcases c with _ | c'
    · by_cases hc : 0 < C - 1
      · rw [total_eq_single R C A _ _ r 0 hr hc
          (fun y x hy hx hne => vanish_BV r 0 y x (by omega) (by omega))]
        unfold cellContrib
        by_cases hA : A r 0 = true
        · rw [if_pos hA, cnt_BV_own, if_pos (Or.inl rfl)]
          right; rfl
        · rw [if_neg hA]; left; rfl
      · left
        exact total_eq_zero R C A _ _ (fun y x hy hx => vanish_BV r 0 y x (by omega) (by omega))
    · by_cases hc2 : c' + 1 < C - 1
      · rw [total_eq_pair_cols R C A _ _ r c' (c' + 1) (by omega) hr hc2
          (fun y x hy hx h1 h2 => vanish_BV r (c' + 1) y x (by omega) (by omega))]
        unfold cellContrib
        by_cases hA1 : A r c' = true <;> by_cases hA2 : A r (c' + 1) = true
        · rw [if_pos hA1, if_pos hA2, cnt_BV_east, cnt_BV_own]
          simp only [Nat.add_sub_cancel]
          right
          rw [if_neg (by push_neg; exact ⟨by omega, by simp [hA2]⟩)]
          rw [if_neg (by push_neg; exact ⟨by omega, by simp [hA1]⟩)]
        · have hA2f : A r (c' + 1) = false := by revert hA2; cases A r (c' + 1) <;> simp
          rw [if_pos hA1, if_neg hA2, cnt_BV_east, if_pos (Or.inr hA2f)]
          right; rfl
        · have hA1f : A r c' = false := by revert hA1; cases A r c' <;> simp
          rw [if_neg hA1, if_pos hA2, cnt_BV_own]
          simp only [Nat.add_sub_cancel]
          rw [if_pos (Or.inr hA1f)]
          right; rfl
        · rw [if_neg hA1, if_neg hA2]; left; rfl
      · by_cases hc1 : c' < C - 1
        · rw [total_eq_single R C A _ _ r c' hr hc1
            (fun y x hy hx hne => vanish_BV r (c' + 1) y x (by omega) (by omega))]
          unfold cellContrib
          by_cases hA1 : A r c' = true
          · rw [if_pos hA1, cnt_BV_east, if_pos (Or.inl (by omega))]
            right; rfl
          · rw [if_neg hA1]; left; rfl
        · left
          exact total_eq_zero R C A _ _
            (fun y x hy hx => vanish_BV r (c' + 1) y x (by omega) (by omega))
  · left
    exact total_eq_zero R C A _ _ (fun y x hy hx => vanish_BV r c y x (by omega) (by omega))

/-- The total count of a horizontal-wall diagonal edge is 0 or 2. -/
theorem count_ND (R C : ℕ) (A : ℕ → ℕ → Bool) (r c : ℕ) :
    edgeCount (meshTrisS R C A) (Tv r (c + 1)) (Bv r c) = 0 ∨
      edgeCount (meshTrisS R C A) (Tv r (c + 1)) (Bv r c) = 2 := by
  by_cases hc : c < C - 1
  · rcases r with _ | r'
    · by_cases hr : 0 < R - 1
      · rw [total_eq_single R C A _ _ 0 c hr hc
          (fun y x hy hx hne => vanish_ND 0 c y x (by omega) (by omega))]
        unfold cellContrib
        by_cases hA : A 0 c = true
        · rw [if_pos hA, cnt_ND_own, if_pos (Or.inl rfl)]
          right; rfl
        · rw [if_neg hA]; left; rfl
      · left
        exact total_eq_zero R C A _ _ (fun y x hy hx => vanish_ND 0 c y x (by omega) (by omega))
    · by_cases hr2 : r' + 1 < R - 1
      · rw [total_eq_pair_rows R C A _ _ r' (r' + 1) c (by omega) hr2 hc
          (fun y x hy hx h1 h2 => vanish_ND (r' + 1) c y x (by omega) (by omega))]
        unfold cellContrib
        by_cases hA1 : A r' c = true <;> by_cases hA2 : A (r' + 1) c = true
        · rw [if_pos hA1, if_pos hA2, cnt_ND_south, cnt_ND_own]
          simp only [Nat.add_sub_cancel]
          rw [if_neg (by push_neg; exact ⟨by omega, by simp [hA2]⟩)]
          rw [if_neg (by push_neg; exact ⟨by omega, by simp [hA1]⟩)]
          left; rfl
        · have hA2f : A (r' + 1) c = false := by revert hA2; cases A (r' + 1) c <;> simp
          rw [if_pos hA1, if_neg hA2, cnt_ND_south, if_pos (Or.inr hA2f)]
          right; rfl
        · have hA1f : A r' c = false := by revert hA1; cases A r' c <;> simp
          rw [if_neg hA1, if_pos hA2, cnt_ND_own]
          simp only [Nat.add_sub_cancel]
          rw [if_pos (Or.inr hA1f)]
          right; rfl
        · rw [if_neg hA1, if_neg hA2]; left; rfl
      · by_cases hr1 : r' < R - 1
        · rw [total_eq_single R C A _ _ r' c hr1 hc
            (fun y x hy hx hne => vanish_ND (r' + 1) c y x (by omega) (by omega))]
          unfold cellContrib
          by_cases hA1 : A r' c = true
          · rw [if_pos hA1, cnt_ND_south, if_pos (Or.inl (by omega))]
            right; rfl
          · rw [if_neg hA1]; left; rfl
        · left
          exact total_eq_zero R C A _ _
            (fun y x hy hx => vanish_ND (r' + 1) c y x (by omega) (by omega))
  · left
    exact total_eq_zero R C A _ _ (fun y x hy hx => vanish_ND r c y x (by omega) (by omega))

/-- The total count of a vertical-wall diagonal edge is 0 or 2. -/
theorem count_WD (R C : ℕ) (A : ℕ → ℕ → Bool) (r c : ℕ) :
    edgeCount (meshTrisS R C A) (Tv (r + 1) c) (Bv r c) = 0 ∨
      edgeCount (meshTrisS R C A) (Tv (r + 1) c) (Bv r c) = 2 := by
  by_cases hr : r < R - 1
  · rcases c with _ | c'
    · by_cases hc : 0 < C - 1
      · rw [total_eq_single R C A _ _ r 0 hr hc
          (fun y x hy hx hne => vanish_WD r 0 y x (by omega) (by omega))]
        unfold cellContrib
        by_cases hA : A r 0 = true
        · rw [if_pos hA, cnt_WD_own, if_pos (Or.inl rfl)]
          right; rfl
        · rw [if_neg hA]; left; rfl
      · left
        exact total_eq_zero R C A _ _ (fun y x hy hx => vanish_WD r 0 y x (by omega) (by omega))
    · by_cases hc2 : c' + 1 < C - 1
      · rw [total_eq_pair_cols R C A _ _ r c' (c' + 1) (by omega) hr hc2
          (fun y x hy hx h1 h2 => vanish_WD r (c' + 1) y x (by omega) (by omega))]
        unfold cellContrib
        by_cases hA1 : A r c' = true <;> by_cases hA2 : A r (c' + 1) = true
        · rw [if_pos hA1, if_pos hA2, cnt_WD_east, cnt_WD_own]
          simp only [Nat.add_sub_cancel]
          rw [if_neg (by push_neg; exact ⟨by omega, by simp [hA2]⟩)]
          rw [if_neg (by push_neg; exact ⟨by omega, by simp [hA1]⟩)]
          left; rfl
        · have hA2f : A r (c' + 1) = false := by revert hA2; cases A r (c' + 1) <;> simp
          rw [if_pos hA1, if_neg hA2, cnt_WD_east, if_pos (Or.inr hA2f)]
          right; rfl
        · have hA1f : A r c' = false := by revert hA1; cases A r c' <;> simp
          rw [if_neg hA1, if_pos hA2, cnt_WD_own]
          simp only [Nat.add_sub_cancel]
          rw [if_pos (Or.inr hA1f)]
          right; rfl
        · rw [if_neg hA1, if_neg hA2]; left; rfl
      · by_cases hc1 : c' < C - 1
        · rw [total_eq_single R C A _ _ r c' hr hc1
            (fun y x hy hx hne => vanish_WD r (c' + 1) y x (by omega) (by omega))]
          unfold cellContrib
          by_cases hA1 : A r c' = true
          · rw [if_pos hA1, cnt_WD_east, if_pos (Or.inl (by omega))]
            right; rfl
          · rw [if_neg hA1]; left; rfl
        · left
          exact total_eq_zero R C A _ _
            (fun y x hy hx => vanish_WD r (c' + 1) y x (by omega) (by omega))
  · left
    exact total_eq_zero R C A _ _ (fun y x hy hx => vanish_WD r c y x (by omega) (by omega))

/-- The total count of a pillar edge is 0 or 2, given that active cells never
meet only at a corner. -/
theorem count_P (R C : ℕ) (A : ℕ → ℕ → Bool)
    (hD : ∀ y x : ℕ,
      ¬(A y x = true ∧ A (y + 1) (x + 1) = true ∧ A y (x + 1) = false ∧ A (y + 1) x = false) ∧
      ¬(A y (x + 1) = true ∧ A (y + 1) x = true ∧ A y x = false ∧ A (y + 1) (x + 1) = false))
    (r c : ℕ) :
    edgeCount (meshTrisS R C A) (Tv r c) (Bv r c) = 0 ∨
      edgeCount (meshTrisS R C A) (Tv r c) (Bv r c) = 2 := by
  rcases r with _ | r' <;> rcases c with _ | c'
  · by_cases h1 : 0 < R - 1
    · by_cases h2 : 0 < C - 1
      · rw [total_eq_single R C A _ _ 0 0 h1 h2
          (fun y x hy hx hne => vanish_P 0 0 y x (by omega) (by omega) (by omega) (by omega))]
        unfold cellContrib
        rw [cnt_P_own A R C 0 0]
        cases ha : A 0 0 <;> simp [ha]
      · left
        exact total_eq_zero R C A _ _
          (fun y x hy hx => vanish_P 0 0 y x (by omega) (by omega) (by omega) (by omega))
    · left
      exact total_eq_zero R C A _ _
        (fun y x hy hx => vanish_P 0 0 y x (by omega) (by omega) (by omega) (by omega))
  · by_cases hR0 : 0 < R - 1
    · by_cases hc2 : c' + 1 < C - 1
      · rw [total_eq_pair_cols R C A _ _ 0 c' (c' + 1) (by omega) hR0 hc2
          (fun y x hy hx h1 h2 =>
            vanish_P 0 (c' + 1) y x (by omega) (by omega) (by omega) (by omega))]
        unfold cellContrib
        rw [cnt_P_ne A R C 0 c', cnt_P_own A R C 0 (c' + 1)]
        simp only [Nat.add_sub_cancel]
        have hb1 : ¬(c' = C - 2) := by omega
        cases ha : A 0 c' <;> cases hb : A 0 (c' + 1) <;> simp [ha, hb, hb1]
      · by_cases hc1 : c' < C - 1
        · rw [total_eq_single R C A _ _ 0 c' hR0 hc1
            (fun y x hy hx hne =>
              vanish_P 0 (c' + 1) y x (by omega) (by omega) (by omega) (by omega))]
          unfold cellContrib
          rw [cnt_P_ne A R C 0 c', if_pos (Or.inl (show c' = C - 2 by omega))]
          cases ha : A 0 c' <;> simp [ha]
        · left
          exact total_eq_zero R C A _ _
            (fun y x hy hx => vanish_P 0 (c' + 1) y x (by omega) (by omega) (by omega) (by omega))
    · left
      exact total_eq_zero R C A _ _
        (fun y x hy hx => vanish_P 0 (c' + 1) y x (by omega) (by omega) (by omega) (by omega))
  · by_cases hC0 : 0 < C - 1
    · by_cases hr2 : r' + 1 < R - 1
      · rw [total_eq_pair_rows R C A _ _ r' (r' + 1) 0 (by omega) hr2 hC0
          (fun y x hy hx h1 h2 =>
            vanish_P (r' + 1) 0 y x (by omega) (by omega) (by omega) (by omega))]
        unfold cellContrib
        rw [cnt_P_sw A R C r' 0, cnt_P_own A R C (r' + 1) 0]
        simp only [Nat.add_sub_cancel]
        have hb1 : ¬(r' = R - 2) := by omega
        cases ha : A r' 0 <;> cases hb : A (r' + 1) 0 <;> simp [ha, hb, hb1]
      · by_cases hr1 : r' < R - 1
        · rw [total_eq_single R C A _ _ r' 0 hr1 hC0
            (fun y x hy hx hne =>
              vanish_P (r' + 1) 0 y x (by omega) (by omega) (by omega) (by omega))]
          unfold cellContrib
          rw [cnt_P_sw A R C r' 0, if_pos (Or.inl (show r' = R - 2 by omega))]
          cases ha : A r' 0 <;> simp [ha]
        · left
          exact total_eq_zero R C A _ _
            (fun y x hy hx => vanish_P (r' + 1) 0 y x (by omega) (by omega) (by omega) (by omega))
    · left
      exact total_eq_zero R C A _ _
        (fun y x hy hx => vanish_P (r' + 1) 0 y x (by omega) (by omega) (by omega) (by omega))
  · by_cases hr2 : r' + 1 < R - 1
    · by_cases hc2 : c' + 1 < C - 1
      · rw [total_eq_quad R C A _ _ r' (r' + 1) c' (c' + 1) (by omega) hr2 (by omega) hc2
          (fun y x hy hx h1 h2 h3 h4 =>
            vanish_P (r' + 1) (c' + 1) y x (by omega) (by omega) (by omega) (by omega))]
        unfold cellContrib
        rw [cnt_P_se A R C r' c', cnt_P_sw A R C r' (c' + 1), cnt_P_ne A R C (r' + 1) c',
          cnt_P_own A R C (r' + 1) (c' + 1)]
        simp only [Nat.add_sub_cancel]
        have hb1 : ¬(r' = R - 2) := by omega
        have hb2 : ¬(c' = C - 2) := by omega
        cases ha : A r' c' <;> cases hb : A r' (c' + 1) <;> cases hc3 : A (r' + 1) c' <;>
          cases hd : A (r' + 1) (c' + 1) <;> simp [ha, hb, hc3, hd, hb1, hb2]
        · exact absurd ⟨hb, hc3, ha, hd⟩ (hD r' c').2
        · exact absurd ⟨ha, hd, hb, hc3⟩ (hD r' c').1
      · by_cases hc1 : c' < C - 1
        · have hcc : c' = C - 2 := by omega
          subst hcc
          rw [total_eq_pair_rows R C A _ _ r' (r' + 1) (C - 2) (by omega) hr2 hc1
            (fun y x hy hx h1 h2 =>
              vanish_P (r' + 1) (C - 2 + 1) y x (by omega) (by omega) (by omega) (by omega))]
          unfold cellContrib
          rw [cnt_P_se A R C r' (C - 2), cnt_P_ne A R C (r' + 1) (C - 2)]
          simp only [Nat.add_sub_cancel]
          have hb1 : ¬(r' = R - 2) := by omega
          cases ha : A r' (C - 2) <;> cases hb : A (r' + 1) (C - 2) <;> simp [ha, hb, hb1]
        · left
          exact total_eq_zero R C A _ _
            (fun y x hy hx =>
              vanish_P (r' + 1) (c' + 1) y x (by omega) (by omega) (by omega) (by omega))
    · by_cases hr1 : r' < R - 1
      · by_cases hc2 : c' + 1 < C - 1
        · have hrr : r' = R - 2 := by omega
          subst hrr
          rw [total_eq_pair_cols R C A _ _ (R - 2) c' (c' + 1) (by omega) hr1 hc2
            (fun y x hy hx h1 h2 =>
              vanish_P (R - 2 + 1) (c' + 1) y x (by omega) (by omega) (by omega) (by omega))]
          unfold cellContrib
          rw [cnt_P_se A R C (R - 2) c', cnt_P_sw A R C (R - 2) (c' + 1)]
          simp only [Nat.add_sub_cancel]
          have hb2 : ¬(c' = C - 2) := by omega
          cases ha : A (R - 2) c' <;> cases hb : A (R - 2) (c' + 1) <;> simp [ha, hb, hb2]
        · by_cases hc1 : c' < C - 1
          · rw [total_eq_single R C A _ _ r' c' hr1 hc1
              (fun y x hy hx hne =>
                vanish_P (r' + 1) (c' + 1) y x (by omega) (by omega) (by omega) (by omega))]
            unfold cellContrib
            rw [cnt_P_se A R C r' c', if_pos (Or.inl (show r' = R - 2 by omega)),
              if_pos (Or.inl (show c' = C - 2 by omega))]
            cases ha : A r' c' <;> simp [ha]
          · left
            exact total_eq_zero R C A _ _
              (fun y x hy hx =>
                vanish_P (r' + 1) (c' + 1) y x (by omega) (by omega) (by omega) (by omega))
      · left
        exact total_eq_zero R C A _ _
          (fun y x hy hx =>
            vanish_P (r' + 1) (c' + 1) y x (by omega) (by omega) (by omega) (by omega))

/-- Every edge of the structured triangle list occurs 0 or 2 times, given that
active cells never meet only at a corner. -/
theorem meshTrisS_closed (R C : ℕ) (A : ℕ → ℕ → Bool)
    (hD : ∀ y x : ℕ,
      ¬(A y x = true ∧ A (y + 1) (x + 1) = true ∧ A y (x + 1) = false ∧ A (y + 1) x = false) ∧
      ¬(A y (x + 1) = true ∧ A (y + 1) x = true ∧ A y x = false ∧ A (y + 1) (x + 1) = false))
    (u v : Vert) :
    edgeCount (meshTrisS R C A) u v = 0 ∨ edgeCount (meshTrisS R C A) u v = 2 := by
  obtain ⟨b1, y1, x1⟩ := u
  obtain ⟨b2, y2, x2⟩ := v
  cases b1 <;> cases b2
  · by_cases h1 : y1 = y2 ∧ x2 = x1 + 1
    · rw [h1.1, h1.2]
      exact count_BH R C A y2 x1
    by_cases h2 : y1 = y2 ∧ x1 = x2 + 1
    · rw [h2.1, h2.2, edgeCount_comm]
      exact count_BH R C A y2 x2
    by_cases h3 : x1 = x2 ∧ y2 = y1 + 1
    · rw [h3.1, h3.2]
      exact count_BV R C A y1 x2
    by_cases h4 : x1 = x2 ∧ y1 = y2 + 1
    · rw [h4.1, h4.2, edgeCount_comm]
      exact count_BV R C A y2 x2
    by_cases h5 : y1 = y2 + 1 ∧ x2 = x1 + 1
    · rw [h5.1, h5.2, edgeCount_comm]
      exact count_BD R C A y2 x1
    by_cases h6 : y2 = y1 + 1 ∧ x1 = x2 + 1
    · rw [h6.1, h6.2]
      exact count_BD R C A y1 x2
    left
    exact total_eq_zero R C A _ _
      (fun y x hy hx => vanish_BB_gen y1 x1 y2 x2 y x h1 h2 h3 h4 h5 h6)
  · rw [edgeCount_comm]
    by_cases h1 : y2 = y1 ∧ x2 = x1
    · rw [h1.1, h1.2]
      exact count_P R C A hD y1 x1
    by_cases h2 : y2 = y1 ∧ x2 = x1 + 1
    · rw [h2.1, h2.2]
      exact count_ND R C A y1 x1
    by_cases h3 : x2 = x1 ∧ y2 = y1 + 1
    · rw [h3.1, h3.2]
      exact count_WD R C A y1 x1
    left
    exact total_eq_zero R C A _ _
      (fun y x hy hx => vanish_TB_gen y2 x2 y1 x1 y x h1 h2 h3)
  · by_cases h1 : y1 = y2 ∧ x1 = x2
    · rw [h1.1, h1.2]
      exact count_P R C A hD y2 x2
    by_cases h2 : y1 = y2 ∧ x1 = x2 + 1
    · rw [h2.1, h2.2]
      exact count_ND R C A y2 x2
    by_cases h3 : x1 = x2 ∧ y1 = y2 + 1
    · rw [h3.1, h3.2]
      exact count_WD R C A y2 x2
    left
    exact total_eq_zero R C A _ _
      (fun y x hy hx => vanish_TB_gen y1 x1 y2 x2 y x h1 h2 h3)
  · by_cases h1 : y1 = y2 ∧ x2 = x1 + 1
    · rw [h1.1, h1.2]
      exact count_TH R C A y2 x1
    by_cases h2 : y1 = y2 ∧ x1 = x2 + 1
    · rw [h2.1, h2.2, edgeCount_comm]
      exact count_TH R C A y2 x2
    by_cases h3 : x1 = x2 ∧ y2 = y1 + 1
    · rw [h3.1, h3.2]
      exact count_TV R C A y1 x2
    by_cases h4 : x1 = x2 ∧ y1 = y2 + 1
    · rw [h4.1, h4.2, edgeCount_comm]
      exact count_TV R C A y2 x2
    by_cases h5 : y1 = y2 + 1 ∧ x2 = x1 + 1
    · rw [h5.1, h5.2]
      exact count_TD R C A y2 x1
    by_cases h6 : y2 = y1 + 1 ∧ x1 = x2 + 1
    · rw [h6.1, h6.2, edgeCount_comm]
      exact count_TD R C A y1 x2
    left
    exact total_eq_zero R C A _ _
      (fun y x hy hx => vanish_TT_gen y1 x1 y2 x2 y x h1 h2 h3 h4 h5 h6)

/-- Row-major decomposition `a*C + c` with `c < C` is unique. -/
theorem rowcol_eq (Cv a1 c1 a2 c2 : ℕ) (hc1 : c1 < Cv) (hc2 : c2 < Cv)
    (h : a1 * Cv + c1 = a2 * Cv + c2) : a1 = a2 ∧ c1 = c2 := by
  rcases Nat.lt_trichotomy a1 a2 with hlt | heq | hgt
  · have hm := Nat.mul_le_mul_right Cv hlt
    rw [Nat.succ_mul] at hm
    omega
  · subst heq; omega
  · have hm := Nat.mul_le_mul_right Cv hgt
    rw [Nat.succ_mul] at hm
    omega

/-- The vertex index encoding is injective on in-grid vertices. -/
theorem encV_inj_bounded (R C : ℕ) (w1 w2 : Vert)
    (hb1 : w1.2.1 < R) (hb2 : w1.2.2 < C) (hb3 : w2.2.1 < R) (hb4 : w2.2.2 < C)
    (he : encV R C w1 = encV R C w2) : w1 = w2 := by
  obtain ⟨b1, a1, c1⟩ := w1
  obtain ⟨b2, a2, c2⟩ := w2
  dsimp only at hb1 hb2 hb3 hb4
  cases b1 <;> cases b2
  · simp [encV] at he
    have hr := rowcol_eq C a1 c1 a2 c2 hb2 hb4 (by omega)
    simp [Prod.mk.injEq, hr.1, hr.2]
  · exfalso
    simp [encV] at he
    have hm := Nat.mul_le_mul_right C hb3
    rw [Nat.succ_mul] at hm
    omega
  · exfalso
    simp [encV] at he
    have hm := Nat.mul_le_mul_right C hb1
    rw [Nat.succ_mul] at hm
    omega
  · simp [encV] at he
    have hr := rowcol_eq C a1 c1 a2 c2 hb2 hb4 (by omega)
    simp [Prod.mk.injEq, hr.1, hr.2]

/-- Every index below `2*R*C` decodes to an in-grid vertex. -/
theorem encV_exists (R C a : ℕ) (hC : 0 < C) (ha : a < 2 * (R * C)) :
    ∃ w : Vert, w.2.1 < R ∧ w.2.2 < C ∧ encV R C w = a := by
  by_cases h : a < R * C
  · refine ⟨(true, a / C, a % C), (Nat.div_lt_iff_lt_mul hC).mpr (by omega),
      Nat.mod_lt _ hC, ?_⟩
    simp [encV]
    have hdm := Nat.div_add_mod a C
    have hcm : a / C * C = C * (a / C) := Nat.mul_comm _ _
    omega
  · refine ⟨(false, (a - R * C) / C, (a - R * C) % C),
      (Nat.div_lt_iff_lt_mul hC).mpr (by omega), Nat.mod_lt _ hC, ?_⟩
    simp [encV]
    have hdm := Nat.div_add_mod (a - R * C) C
    have hcm : (a - R * C) / C * C = C * ((a - R * C) / C) := Nat.mul_comm _ _
    omega

/-- Every structured triangle the mesher emits has in-grid vertices. -/
theorem mem_meshTrisS_vertBound (R C : ℕ) (A : ℕ → ℕ → Bool) (t : Vert × Vert × Vert)
    (h : t ∈ meshTrisS R C A) :
    (t.1.2.1 < R ∧ t.1.2.2 < C) ∧ (t.2.1.2.1 < R ∧ t.2.1.2.2 < C) ∧
      (t.2.2.2.1 < R ∧ t.2.2.2.2 < C) := by
  obtain ⟨y, x, hy, hx, _, htc⟩ := (mem_meshTrisS R C A t).mp h
  have htall := (cellTris_sublist A R C y x).mem htc
  simp only [allTris, List.mem_append, List.mem_cons, List.not_mem_nil, or_false] at htall
  rcases htall with ((((rfl | rfl | rfl | rfl) | rfl | rfl) | rfl | rfl) | rfl | rfl) | rfl | rfl <;>
    dsimp only [Tv, Bv] <;> omega

/-- Edge counts transfer between structured and encoded triangles for in-grid
endpoints. -/
theorem edgeCount_enc_eq (R C : ℕ) (A : ℕ → ℕ → Bool) (ua ub : Vert)
    (ha1 : ua.2.1 < R) (ha2 : ua.2.2 < C) (hb1 : ub.2.1 < R) (hb2 : ub.2.2 < C) :
    edgeCount ((meshTrisS R C A).map (encTri R C)) (encV R C ua) (encV R C ub) =
      edgeCount (meshTrisS R C A) ua ub := by
  unfold edgeCount
  rw [List.countP_map]
  apply List.countP_congr
  intro t ht
  obtain ⟨⟨k1, k2⟩, ⟨k3, k4⟩, ⟨k5, k6⟩⟩ := mem_meshTrisS_vertBound R C A t ht
  have e : ∀ (w1 w2 : Vert), w1.2.1 < R → w1.2.2 < C → w2.2.1 < R → w2.2.2 < C →
      decide (encV R C w1 = encV R C w2) = decide (w1 = w2) := by
    intro w1 w2 j1 j2 j3 j4
    rw [decide_eq_decide]
    exact ⟨fun hh => encV_inj_bounded R C w1 w2 j1 j2 j3 j4 hh, fun hh => by rw [hh]⟩
  simp only [Function.comp_apply]
  unfold hasEdge encTri
  dsimp only
  rw [e t.1 ua k1 k2 ha1 ha2, e t.1 ub k1 k2 hb1 hb2,
    e t.2.1 ua k3 k4 ha1 ha2, e t.2.1 ub k3 k4 hb1 hb2,
    e t.2.2 ua k5 k6 ha1 ha2, e t.2.2 ub k5 k6 hb1 hb2]

/-- When some cell is active, the mesher returns the encoded cell triangles,
not the fallback. -/
theorem meshTris_eq_of_active (h : HeightMap) (f : ℚ) (hAny : anyActiveCell h f = true) :
    meshTris h f = (meshTrisS h.rows h.cols (cellActive h f)).map (encTri h.rows h.cols) := by
  have hne : (meshTrisS h.rows h.cols (cellActive h f)).map (encTri h.rows h.cols) ≠ [] := by
    simp only [anyActiveCell, List.any_eq_true, List.mem_range] at hAny
    obtain ⟨y, hy, x, hx, hA⟩ := hAny
    have hmem : (Tv y x, Tv (y + 1) x, Tv y (x + 1)) ∈
        meshTrisS h.rows h.cols (cellActive h f) :=
      (mem_meshTrisS _ _ _ _).mpr ⟨y, x, hy, hx, hA, by simp [cellTris]⟩
    intro hnil
    have hmm := List.mem_map_of_mem (encTri h.rows h.cols) hmem
    rw [hnil] at hmm
    exact List.not_mem_nil _ hmm
  simp only [meshTris]
  rw [if_neg hne]

/-- C1 (amended): for a heightmap with at least 2 rows and 2 columns in which
some quad cell is active and no two active cells touch only at a corner, the
triangle set emitted by `_heightmap_to_mesh` is closed: every undirected edge
that occurs at all occurs in exactly two triangles.  The original claim fails
for cleaned heightmaps with no active cell, where the open fallback triangles
are emitted instead. -/
theorem c1_mesh_closed_amended (h : HeightMap) (f : ℚ)
    (hR : 2 ≤ h.rows) (hC : 2 ≤ h.cols)
    (hAny : anyActiveCell h f = true) (hDiag : diagContactFree h f = true) :
    IsClosedMesh (meshTris h f) := by
  have hA : ∀ y x, cellActive h f y x = true → y < h.rows - 1 ∧ x < h.cols - 1 := by
    intro y x hyx
    simp only [cellActive, Bool.and_eq_true, decide_eq_true_eq] at hyx
    obtain ⟨⟨g1, g2⟩, -⟩ := hyx
    omega
  have hDiag' : ∀ y x, y < h.rows - 1 → x < h.cols - 1 →
      (!(cellActive h f y x && cellActive h f (y + 1) (x + 1) &&
        !cellActive h f y (x + 1) && !cellActive h f (y + 1) x) &&
       !(cellActive h f y (x + 1) && cellActive h f (y + 1) x &&
        !cellActive h f y x && !cellActive h f (y + 1) (x + 1))) = true := by
    intro y x hy hx
    simp only [diagContactFree, List.all_eq_true, List.mem_range] at hDiag
    exact hDiag y hy x hx
  have hD : ∀ y x : ℕ,
      ¬(cellActive h f y x = true ∧ cellActive h f (y + 1) (x + 1) = true ∧
        cellActive h f y (x + 1) = false ∧ cellActive h f (y + 1) x = false) ∧
      ¬(cellActive h f y (x + 1) = true ∧ cellActive h f (y + 1) x = true ∧
        cellActive h f y x = false ∧ cellActive h f (y + 1) (x + 1) = false) := by
    intro y x
    constructor
    · rintro ⟨p1, p2, p3, p4⟩
      have hb := hDiag' y x (hA y x p1).1 (hA y x p1).2
      rw [p1, p2, p3, p4] at hb
      simp at hb
    · rintro ⟨p1, p2, p3, p4⟩
      have hyx1 := hA y (x + 1) p1
      have hyx2 := hA (y + 1) x p2
      have hb := hDiag' y x (by omega) (by omega)
      rw [p1, p2, p3, p4] at hb
      simp at hb
  intro a b hab
  rw [meshTris_eq_of_active h f hAny] at hab ⊢
  by_cases ha' : a < 2 * (h.rows * h.cols)
  · by_cases hb' : b < 2 * (h.rows * h.cols)
    · obtain ⟨ua, j1, j2, j3⟩ := encV_exists h.rows h.cols a (by omega) ha'
      obtain ⟨ub, j4, j5, j6⟩ := encV_exists h.rows h.cols b (by omega) hb'
      rw [← j3, ← j6] at hab ⊢
      rw [edgeCount_enc_eq h.rows h.cols (cellActive h f) ua ub j1 j2 j4 j5] at hab ⊢
      rcases meshTrisS_closed h.rows h.cols (cellActive h f) hD ua ub with h0 | h2
      · exact absurd h0 hab
      · exact h2
    · exfalso
      apply hab
      unfold edgeCount
      rw [List.countP_eq_zero]
      intro t ht
      obtain ⟨t', ht', rfl⟩ := List.mem_map.mp ht
      obtain ⟨⟨k1, k2⟩, ⟨k3, k4⟩, ⟨k5, k6⟩⟩ := mem_meshTrisS_vertBound _ _ _ t' ht'
      have e1 : encV h.rows h.cols t'.1 < 2 * (h.rows * h.cols) :=
        encV_lt h.rows h.cols t'.1.1 t'.1.2.1 t'.1.2.2 k1 k2
      have e2 : encV h.rows h.cols t'.2.1 < 2 * (h.rows * h.cols) :=
        encV_lt h.rows h.cols t'.2.1.1 t'.2.1.2.1 t'.2.1.2.2 k3 k4
      have e3 : encV h.rows h.cols t'.2.2 < 2 * (h.rows * h.cols) :=
        encV_lt h.rows h.cols t'.2.2.1 t'.2.2.2.1 t'.2.2.2.2 k5 k6
      have n1 : decide (encV h.rows h.cols t'.1 = b) = false := decide_eq_false (by omega)
      have n2 : decide (encV h.rows h.cols t'.2.1 = b) = false := decide_eq_false (by omega)
      have n3 : decide (encV h.rows h.cols t'.2.2 = b) = false := decide_eq_false (by omega)
      unfold hasEdge encTri
      dsimp only
      rw [n1, n2, n3]
      simp
  · exfalso
    apply hab
    unfold edgeCount
    rw [List.countP_eq_zero]
    intro t ht
    obtain ⟨t', ht', rfl⟩ := List.mem_map.mp ht
    obtain ⟨⟨k1, k2⟩, ⟨k3, k4⟩, ⟨k5, k6⟩⟩ := mem_meshTrisS_vertBound _ _ _ t' ht'
    have e1 : encV h.rows h.cols t'.1 < 2 * (h.rows * h.cols) :=
      encV_lt h.rows h.cols t'.1.1 t'.1.2.1 t'.1.2.2 k1 k2
    have e2 : encV h.rows h.cols t'.2.1 < 2 * (h.rows * h.cols) :=
      encV_lt h.rows h.cols t'.2.1.1 t'.2.1.2.1 t'.2.1.2.2 k3 k4
    have e3 : encV h.rows h.cols t'.2.2 < 2 * (h.rows * h.cols) :=
      encV_lt h.rows h.cols t'.2.2.1 t'.2.2.2.1 t'.2.2.2.2 k5 k6
    have n1 : decide (encV h.rows h.cols t'.1 = a) = false := decide_eq_false (by omega)
    have n2 : decide (encV h.rows h.cols t'.2.1 = a) = false := decide_eq_false (by omega)
    have n3 : decide (encV h.rows h.cols t'.2.2 = a) = false := decide_eq_false (by omega)
    unfold hasEdge encTri
    dsimp only
    rw [n1, n2, n3]
    simp

/-- Witness for C1 at the all-one 2x2 heightmap: the amended hypotheses hold
and the emitted mesh is closed. -/
theorem c1_mesh_closed_witness :
    (2 ≤ hmOne22.rows ∧ 2 ≤ hmOne22.cols ∧
      anyActiveCell hmOne22 surfaceFloorDefault = true ∧
      diagContactFree hmOne22 surfaceFloorDefault = true) ∧
    IsClosedMesh (meshTris hmOne22 surfaceFloorDefault) :=
  ⟨⟨by decide, by decide, by decide, by decide⟩,
    c1_mesh_closed_amended hmOne22 surfaceFloorDefault (by decide) (by decide)
      (by decide) (by decide)⟩

/-- C1 counterexample: the all-zero 2x2 heightmap passes cleaning unchanged and
has 2 rows and 2 columns, yet the emitted fallback mesh is open: edge `{0, 1}`
lies in exactly one triangle. -/
theorem c1_counterexample_fallback_open :
    (cleanHeightmap hmZero22).rows = 2 ∧ (cleanHeightmap hmZero22).cols = 2 ∧
    edgeCount (meshTris (cleanHeightmap hmZero22) surfaceFloorDefault) 0 1 = 1 ∧
    ¬ IsClosedMesh (meshTris (cleanHeightmap hmZero22) surfaceFloorDefault) := by
  have hcl : cleanHeightmap hmZero22 = hmZero22 := by
    simp only [cleanHeightmap]
    rw [if_pos (by decide)]
  refine ⟨by rw [hcl]; rfl, by rw [hcl]; rfl, ?_, ?_⟩
  · rw [hcl, meshTris_hmZero22_eval]
    decide
  · intro hclosed
    have h2 := hclosed 0 1 (by rw [hcl, meshTris_hmZero22_eval]; decide)
    rw [hcl, meshTris_hmZero22_eval] at h2
    have h1 : edgeCount (fallbackTris 2 2) 0 1 = 1 := by decide
    omega
